import Mathlib

/-!
Verification development for the MeshNotes repository.

Shallow embedding of the merge engine (`js/export/import-json.js`), the
face-identifier codec and incremental highlight buffer of the surface paint
engine, the surface-projection acceptance test, and the adjacent-edge
recomputation rule, together with theorems settling the specification
claims about them.

Modelling conventions:
* JS strings are Lean `String`s; the JS `>`/`localeCompare` comparisons on
  ISO timestamp strings are the lexicographic order on `String`.
* A JS field that may be `undefined` is either an `Option` or, for string
  fields tested with `||`, a `String` where `""` plays the role of the
  falsy/absent value (exactly the values JS treats as falsy there).
* JS arrays mutated in place are threaded functionally; `Array.prototype.sort`
  (stable) is modelled by `List.insertionSort` with the comparator's `≤`,
  which is stable in the same sense.
* External platform services (date parsing, `Date.now()`-based fresh ids,
  `generateUUID`) are passed in as an explicit environment.
-/

namespace MeshNotes

/-! ### Face identifiers (paint engine, `part_007`)

`const FACE_ID_MULTIPLIER = 10_000_000;`
encode: `const faceId = meshIndex * FACE_ID_MULTIPLIER + triIndex;`
decode: `const meshIdx = Math.floor(faceId / FACE_ID_MULTIPLIER);`
        `const faceIdx = faceId % FACE_ID_MULTIPLIER;` -/

def FACE_ID_MULTIPLIER : Nat := 10000000

def encodeFaceId (meshIndex triIndex : Nat) : Nat :=
  meshIndex * FACE_ID_MULTIPLIER + triIndex

def decodeFaceId (faceId : Nat) : Nat × Nat :=
  (faceId / FACE_ID_MULTIPLIER, faceId % FACE_ID_MULTIPLIER)

/-! ### Kernel-evaluable string comparison

The JS `>` / `localeCompare` on ISO timestamp strings is the lexicographic
order on `String`.  The default `Decidable` instances for `<`/`≤` on
`String` are implemented with iterator loops that the kernel cannot unfold,
so equivalently-valued instances via the character list are installed at
high priority, letting concrete merge runs be checked by `decide`. -/

instance (priority := 2000) : DecidableRel (α := String) (· < ·) := fun a b =>
  decidable_of_iff (a.toList < b.toList) String.lt_iff_toList_lt.symm

instance (priority := 2000) : DecidableRel (α := String) (· ≤ ·) := fun a b =>
  decidable_of_iff (a.toList ≤ b.toList) String.le_iff_toList_le.symm

/-! ### Document model records (merge engine, `js/export/import-json.js`) -/

/-- A version snapshot `{description, author, links, savedAt}` as built by
the import path (`body['meshnotes:versions'].map`) and the editor. -/
structure Version where
  description : String
  author : String
  links : List String
  savedAt : String
deriving DecidableEq

/-- An internal entry record `{id, uuid, description, author, timestamp,
modified, links, versions}`.  `modified = ""` models an absent/falsy
`modified`; `created` models the extra field probed by `entryTimestamp`
on raw W3C shapes (always `""` on internal records). -/
structure Entry where
  id : Nat
  uuid : String
  description : String
  author : String
  timestamp : String
  modified : String := ""
  created : String := ""
  links : List String
  versions : List Version
deriving DecidableEq

def defaultEntry : Entry :=
  { id := 0, uuid := "", description := "", author := "", timestamp := ""
    links := [], versions := [] }

instance : Inhabited Entry := ⟨defaultEntry⟩

/-- Chronological comparator on version snapshots, the `≤` underlying
`versions.sort((a, b) => (a.savedAt || '').localeCompare(b.savedAt || ''))`. -/
def vLe (a b : Version) : Prop := a.savedAt ≤ b.savedAt

instance : DecidableRel vLe := fun a b =>
  inferInstanceAs (Decidable (a.savedAt ≤ b.savedAt))

instance : IsTotal Version vLe := ⟨fun a b => le_total a.savedAt b.savedAt⟩

instance : IsTrans Version vLe := ⟨fun _ _ _ h h' => le_trans h h'⟩

/-- The in-place `sort` at the end of `mergeVersionHistories`. -/
def sortVersions (l : List Version) : List Version := List.insertionSort vLe l

/-- Chronological comparator on entries, the `≤` underlying
`existingEntries.sort` by `(a.timestamp || '').localeCompare(...)`. -/
def entLe (a b : Entry) : Prop := a.timestamp ≤ b.timestamp

instance : DecidableRel entLe := fun a b =>
  inferInstanceAs (Decidable (a.timestamp ≤ b.timestamp))

instance : IsTotal Entry entLe := ⟨fun a b => le_total a.timestamp b.timestamp⟩

instance : IsTrans Entry entLe := ⟨fun _ _ _ h h' => le_trans h h'⟩

/-- The in-place `sort` at the end of `mergeEntries`. -/
def sortEntries (l : List Entry) : List Entry := List.insertionSort entLe l

/-- `function entryTimestamp(entry) { return entry.modified || entry.timestamp
|| entry.created || ''; }` — the "effective timestamp" of an entry. -/
def entryTimestamp (e : Entry) : String :=
  if e.modified ≠ "" then e.modified
  else if e.timestamp ≠ "" then e.timestamp
  else e.created

/-- The `importedVersions.forEach` body of `mergeVersionHistories`: keep an
imported version only if no version with its exact `savedAt` has been seen
(`existingTimestamps` starts as the existing list's `savedAt`s and grows as
versions are appended). -/
def addNewVersions (seen : List String) : List Version → List Version
  | [] => []
  | v :: vs =>
    if v.savedAt ∈ seen then addNewVersions seen vs
    else v :: addNewVersions (v.savedAt :: seen) vs

/-- `mergeVersionHistories(existingVersions, importedVersions)`: no-op when
the imported history is empty/absent, else append the imported versions whose
`savedAt` is new and re-sort chronologically. -/
def mergeVersionHistories (existing imported : List Version) : List Version :=
  if imported = [] then existing
  else sortVersions (existing ++ addNewVersions (existing.map (fun v => v.savedAt)) imported)

/-- Index of the first element satisfying `p` (the JS `Array.prototype.find`
position used via object identity in the source). -/
def findFirstIdx {α : Type} (p : α → Bool) : List α → Option Nat
  | [] => none
  | x :: xs => if p x then some 0 else (findFirstIdx p xs).map (· + 1)

/-- Entry matching in `mergeEntries`: by UUID first, then the content-equality
fallback `description`/`author`/`timestamp` for legacy exports. -/
def findMatchIdx (es : List Entry) (ie : Entry) : Option Nat :=
  match findFirstIdx (fun e => e.uuid == ie.uuid) es with
  | some i => some i
  | none =>
    findFirstIdx (fun e =>
      e.description == ie.description && e.author == ie.author
        && e.timestamp == ie.timestamp) es

/-- The `importedEntries.forEach` body of `mergeEntries`, acting on the
accumulated `(entries, entriesAdded, entriesUpdated)`: unmatched imported
entries are appended; matched ones first union version histories, then are
overwritten (`description`, `author`, `modified`, `links`) only when the
imported effective timestamp is strictly newer. -/
def mergeOneEntry (acc : List Entry × Nat × Nat) (ie : Entry) : List Entry × Nat × Nat :=
  let es := acc.1
  let added := acc.2.1
  let updated := acc.2.2
  match findMatchIdx es ie with
  | none => (es ++ [ie], added + 1, updated)
  | some i =>
    let e := es.getD i defaultEntry
    let e1 := if ie.versions = [] then e
              else { e with versions := mergeVersionHistories e.versions ie.versions }
    if entryTimestamp e1 < entryTimestamp ie then
      (es.set i { e1 with description := ie.description, author := ie.author,
                          modified := ie.modified, links := ie.links },
       added, updated + 1)
    else (es.set i e1, added, updated)

/-- `mergeEntries(existingEntries, importedEntries)`: fold the per-entry merge
over the imported entries, then sort the result chronologically; returns the
merged list with the `{entriesAdded, entriesUpdated}` counts. -/
def mergeEntries (es ies : List Entry) : List Entry × Nat × Nat :=
  let r := ies.foldl mergeOneEntry (es, 0, 0)
  (sortEntries r.1, r.2.1, r.2.2)

/-- The content fields of an entry that a newer import overwrites:
`(description, author, modified, links)`. -/
def entryContent (e : Entry) : String × String × String × List String :=
  (e.description, e.author, e.modified, e.links)

/-! ### Surface projection acceptance (`js/annotation-tools/projection.js`)

The geometry is modelled over `ℝ`; the JS floating-point vectors become
real-component triples and THREE.js vector operations become the usual
componentwise algebra. -/

/-- A world-space vector/point (THREE.Vector3). -/
structure V3 where
  x : ℝ
  y : ℝ
  z : ℝ

def v3Sub (a b : V3) : V3 := ⟨a.x - b.x, a.y - b.y, a.z - b.z⟩

def v3Add (a b : V3) : V3 := ⟨a.x + b.x, a.y + b.y, a.z + b.z⟩

def v3Smul (c : ℝ) (a : V3) : V3 := ⟨c * a.x, c * a.y, c * a.z⟩

def v3Dot (a b : V3) : ℝ := a.x * b.x + a.y * b.y + a.z * b.z

/-- `Vector3.length()`. -/
noncomputable def v3Len (a : V3) : ℝ := Real.sqrt (v3Dot a a)

/-- `a.distanceTo(b)`. -/
noncomputable def v3DistanceTo (a b : V3) : ℝ := v3Len (v3Sub a b)

/-- `isProjectionAcceptable(projectedPoints, pointA, pointB)` with the three
state-config scalars (`state.projectionDeviationRelative`,
`state.projectionDeviationAbsolute`, `state.modelBoundingSize`) made explicit
parameters.  Mirrors the source: degenerate chords below `1e-10` are accepted
outright; otherwise every sample's deviation from the chord (foot of the
perpendicular clamped to the segment) must stay within
`min(relative·chordLength, absolute·boundingSize)`; the for-loop early return
on the first offending sample is the `List.all`. -/
noncomputable def isProjectionAcceptable (devRel devAbs boundingSize : ℝ)
    (projectedPoints : List V3) (pointA pointB : V3) : Bool :=
  let lineDirRaw := v3Sub pointB pointA
  let lineLength := v3Len lineDirRaw
  if lineLength < 1e-10 then true
  else
    let lineDir := v3Smul (1 / lineLength) lineDirRaw
    let relativeLimit := devRel * lineLength
    let absoluteLimit := devAbs * boundingSize
    let maxAllowed := min relativeLimit absoluteLimit
    projectedPoints.all (fun p =>
      let t := max 0 (min lineLength (v3Dot (v3Sub p pointA) lineDir))
      let closestOnLine := v3Add pointA (v3Smul t lineDir)
      decide (v3DistanceTo closestOnLine p ≤ maxAllowed))

/-- The deviation of one sample from the A→B chord, exactly the per-sample
quantity computed inside the acceptance loop (clamped foot of perpendicular). -/
noncomputable def sampleDeviation (pointA pointB p : V3) : ℝ :=
  let lineDirRaw := v3Sub pointB pointA
  let lineLength := v3Len lineDirRaw
  let lineDir := v3Smul (1 / lineLength) lineDirRaw
  let t := max 0 (min lineLength (v3Dot (v3Sub p pointA) lineDir))
  v3DistanceTo (v3Add pointA (v3Smul t lineDir)) p

/-! ### Adjacent-edge recomputation (`js/annotation-tools/projection.js`)

`recomputeAdjacentEdges(ann, pointIndex)` is modelled generically in the
point type `P`; its two collaborators `projectEdgeToSurface` (mesh-dependent)
and `isProjectionAcceptable` (specified above over `ℝ`) are passed in as the
parameters `proj` and `accept`. -/

/-- The repeated update pattern of `recomputeAdjacentEdges`: use the projected
polyline when it exists and is acceptable, else the straight two-point edge. -/
def edgeFor {P : Type} (proj : P → P → Option (List P))
    (accept : List P → P → P → Bool) (pa pb : P) : List P :=
  match proj pa pb with
  | some projected => if accept projected pa pb then projected else [pa, pb]
  | none => [pa, pb]

/-- The slice of an annotation that `recomputeAdjacentEdges` reads and writes:
`type`, `points`, and the cached `projectedEdges`. -/
structure ProjAnn (P : Type) where
  type : String
  points : List P
  projectedEdges : Option (List (List P))
deriving DecidableEq

/-- The index of the edge ending at the moved point:
`(pointIndex - 1 + n) % n` with wraparound for polygons, `pointIndex - 1`
for open polylines (possibly `-1`, rejected by the `prevIdx >= 0` guard). -/
def prevEdgeIdx (type : String) (pointIndex n : Nat) : Int :=
  if type = "polygon" then ((pointIndex : Int) - 1 + (n : Int)) % (n : Int)
  else (pointIndex : Int) - 1

/-- Write the recomputed edge between points `ia` and `ib` at edge slot `k`
(the assignment `ann.projectedEdges[edgeIdx] = ...` of the source); out-of-
range point reads leave the cache unchanged (the callers' guards keep them
in range). -/
def updateEdge {P : Type} (proj : P → P → Option (List P))
    (accept : List P → P → P → Bool) (pts : List P) (es : List (List P))
    (k ia ib : Nat) : List (List P) :=
  match pts.get? ia, pts.get? ib with
  | some a, some b => es.set k (edgeFor proj accept a b)
  | _, _ => es

/-- First half of `recomputeAdjacentEdges`: rewrite the edge ending at the
moved point, guarded by `prevIdx >= 0 && prevIdx < n` and the cache bound. -/
def recomputePrevStage {P : Type} (proj : P → P → Option (List P))
    (accept : List P → P → P → Bool) (type : String) (pts : List P)
    (pointIndex : Nat) (es : List (List P)) : List (List P) :=
  if 0 ≤ prevEdgeIdx type pointIndex pts.length ∧
      prevEdgeIdx type pointIndex pts.length < (pts.length : Int) then
    if (prevEdgeIdx type pointIndex pts.length).toNat < es.length then
      updateEdge proj accept pts es (prevEdgeIdx type pointIndex pts.length).toNat
        (prevEdgeIdx type pointIndex pts.length).toNat pointIndex
    else es
  else es

/-- Second half of `recomputeAdjacentEdges`: rewrite the edge starting at the
moved point (`nextIdx < n`), or the closing edge when the last point of a
polygon moved.  Writing at JS index `-1` (empty cache) leaves the array's
elements unchanged and is modelled as a no-op. -/
def recomputeNextStage {P : Type} (proj : P → P → Option (List P))
    (accept : List P → P → P → Bool) (type : String) (pts : List P)
    (pointIndex : Nat) (es1 : List (List P)) : List (List P) :=
  if pointIndex + 1 < pts.length then
    if pointIndex < es1.length then
      updateEdge proj accept pts es1 pointIndex pointIndex (pointIndex + 1)
    else es1
  else if type = "polygon" ∧ (pointIndex : Int) = (pts.length : Int) - 1 then
    if es1.length = 0 then es1
    else updateEdge proj accept pts es1 (es1.length - 1) pointIndex 0
  else es1

/-- The edge-cache transform of `recomputeAdjacentEdges`: both stages in the
source's order.  Index arithmetic is over `ℤ` to mirror JS number arithmetic
(including the `prevIdx = -1` case of an open polyline's first point, rejected
by the `prevIdx >= 0` guard). -/
def recomputeEdgesList {P : Type} (proj : P → P → Option (List P))
    (accept : List P → P → P → Bool) (type : String) (pts : List P)
    (pointIndex : Nat) (edges0 : List (List P)) : List (List P) :=
  recomputeNextStage proj accept type pts pointIndex
    (recomputePrevStage proj accept type pts pointIndex edges0)

/-- `recomputeAdjacentEdges(ann, pointIndex)`: no-op without a cached
projection, else apply the two-stage adjacent-edge rewrite. -/
def recomputeAdjacentEdges {P : Type} (proj : P → P → Option (List P))
    (accept : List P → P → P → Bool) (ann : ProjAnn P) (pointIndex : Nat) :
    ProjAnn P :=
  match ann.projectedEdges with
  | none => ann
  | some edges0 =>
    let es2 := recomputeEdgesList proj accept ann.type ann.points pointIndex edges0
    { ann with projectedEdges := some es2 }

/-! ### Paint engine highlight buffer (`part_007`)

The painted-face set (a JS `Set`, which iterates in insertion order) is a
duplicate-free insertion-ordered `List Nat` of face ids.  The highlight
buffer's observable content — the valid leading `highlightVertexCount`
vertices within the draw range — is a `List V` of vertices; capacity
management (`ensureHighlightCapacity`, doubling, GPU update ranges) only
affects unobservable storage and upload cost and is not part of the model.
A mesh's geometry lookup plus `matrixWorld` transform (`fromBufferAttribute`
/ `applyMatrix4` in `writeFaceToBuffer`) is the environment function
`faceVerts`, yielding the three world-space vertices of a triangle. -/

/-- The per-mesh geometry environment read by `writeFaceToBuffer`. -/
structure PaintMesh (V : Type) where
  faceVerts : Nat → V × V × V

/-- The paint-session state touched by the modelled functions:
`state.paintedFaces`, `state.pendingFaces`, `state.needsFullHighlightRebuild`
and the valid highlight-buffer prefix (`highlightVertexCount` vertices). -/
structure PaintState (V : Type) where
  paintedFaces : List Nat
  pendingFaces : List Nat
  needsFullHighlightRebuild : Bool
  buffer : List V
deriving DecidableEq

def initialPaintState {V : Type} : PaintState V :=
  { paintedFaces := [], pendingFaces := [], needsFullHighlightRebuild := false,
    buffer := [] }

/-- `writeFaceToBuffer(faceId, floatOffset)`: decode the face id, fail
(`return false`) when the sub-mesh no longer exists, else produce the three
world-space vertices written at the offset. -/
def writeFace {V : Type} (meshes : List (PaintMesh V)) (faceId : Nat) :
    Option (V × V × V) :=
  match meshes.get? (decodeFaceId faceId).1 with
  | none => none
  | some m => some (m.faceVerts (decodeFaceId faceId).2)

/-- The vertices one face contributes to the buffer: three on success,
none when `writeFaceToBuffer` returns `false`. -/
def faceVertsOf {V : Type} (meshes : List (PaintMesh V)) (f : Nat) : List V :=
  match writeFace meshes f with
  | none => []
  | some t => [t.1, t.2.1, t.2.2]

/-- Sequentially write the given faces after the current buffer content,
skipping faces whose mesh is missing — the shared loop shape of
`rebuildHighlightFull` and `appendPendingFaces`. -/
def writeFacesInto {V : Type} (meshes : List (PaintMesh V)) (faces : List Nat)
    (buf : List V) : List V :=
  faces.foldl (fun b f => b ++ faceVertsOf meshes f) buf

/-- `rebuildHighlightFull()`: regenerate the whole valid buffer from the
painted set from scratch. -/
def rebuildHighlightFull {V : Type} (meshes : List (PaintMesh V))
    (s : PaintState V) : PaintState V :=
  { s with buffer := writeFacesInto meshes s.paintedFaces [] }

/-- `appendPendingFaces()`: write only the pending faces at the end of the
valid buffer (the caller clears `pendingFaces` afterwards). -/
def appendPendingFaces {V : Type} (meshes : List (PaintMesh V))
    (s : PaintState V) : PaintState V :=
  if s.pendingFaces = [] then s
  else { s with buffer := writeFacesInto meshes s.pendingFaces s.buffer }

/-- The `intersectsTriangle` body of `paintAtPoint` for one candidate face id
(a triangle whose centroid lies within the brush sphere): erase removes it
from the painted set and forces a full rebuild; paint inserts it and queues it
on `pendingFaces` only when new. -/
def paintProcessFace {V : Type} (isErasing : Bool) (s : PaintState V)
    (faceId : Nat) : PaintState V :=
  if isErasing then
    if faceId ∈ s.paintedFaces then
      { s with paintedFaces := s.paintedFaces.erase faceId,
               needsFullHighlightRebuild := true }
    else s
  else
    if faceId ∈ s.paintedFaces then s
    else { s with paintedFaces := s.paintedFaces ++ [faceId],
                  pendingFaces := s.pendingFaces ++ [faceId] }

/-- `paintAtPoint(point, mesh, faceIndex)` restricted to its painted-set and
pending-queue effect: the spatial query (BVH shapecast or brute-force
fallback) supplies, in traversal order, the candidate face ids whose centroid
lies within the brush radius; each is processed as in the source loop. -/
def paintAtPoint {V : Type} (isErasing : Bool) (candidates : List Nat)
    (s : PaintState V) : PaintState V :=
  candidates.foldl (paintProcessFace isErasing) s

/-- `updateSurfaceHighlight()`: hide (empty draw range) when nothing is
painted; full rebuild after an erase; otherwise incrementally append the
pending faces; in each case the pending queue is cleared. -/
def updateSurfaceHighlight {V : Type} (meshes : List (PaintMesh V))
    (s : PaintState V) : PaintState V :=
  if s.paintedFaces = [] then
    { s with buffer := [], pendingFaces := [], needsFullHighlightRebuild := false }
  else if s.needsFullHighlightRebuild then
    { rebuildHighlightFull meshes s with
        needsFullHighlightRebuild := false, pendingFaces := [] }
  else if s.pendingFaces ≠ [] then
    { appendPendingFaces meshes s with pendingFaces := [] }
  else s

/-- One step of a painting session: a `paintAtPoint` call (with its brush-hit
candidates) or a scheduled `updateSurfaceHighlight` flush. -/
inductive PaintOp where
  | paint (isErasing : Bool) (candidates : List Nat)
  | update
deriving DecidableEq

def runPaintOp {V : Type} (meshes : List (PaintMesh V)) (s : PaintState V) :
    PaintOp → PaintState V
  | .paint isErasing candidates => paintAtPoint isErasing candidates s
  | .update => updateSurfaceHighlight meshes s

def runPaintOps {V : Type} (meshes : List (PaintMesh V)) (s : PaintState V)
    (ops : List PaintOp) : PaintState V :=
  ops.foldl (runPaintOp meshes) s

/-- A session step that is a non-erasing paint whose candidate faces all
resolve to an existing mesh, or a highlight flush. -/
def nonErasingResolvable {V : Type} (meshes : List (PaintMesh V)) :
    PaintOp → Prop
  | .paint isErasing candidates =>
    isErasing = false ∧ ∀ f ∈ candidates, (writeFace meshes f).isSome
  | .update => True

/-! ### Import pipeline (`js/export/import-json.js`)

The merge engine proper.  Imported annotations are modelled after
`convertFromW3CAnnotation` has mapped the W3C fields onto internal records
(that converter, pure field renaming plus the `groupIdMap` lookup, is the
out-of-scope W3C-format boundary); likewise model-info entries are modelled
after the `bodies.map` of lines 154–176.  Platform entropy (`Date.now()`,
`Math.random()`, `generateUUID`) and date parsing (`new Date(x).getTime()`)
are supplied by an `ImportEnv` together with an allocation counter. -/

/-- A 3D point of the document model; coordinates are modelled over `ℚ`
(the import pipeline only moves them around or applies the exact axis
permutation below, so no real arithmetic is needed). -/
structure Pt where
  x : ℚ
  y : ℚ
  z : ℚ
deriving DecidableEq

/-- `pointFromZUp(p)` from `js/export/w3c-format.js`:
`(x, y, z)_zup -> (x, z, -y)_threejs`. -/
def pointFromZUp (p : Pt) : Pt := ⟨p.x, p.z, -p.y⟩

/-- Oriented-box payload `{center, size, rotation}`. -/
structure BoxData where
  center : Pt
  size : Pt
  rotation : Pt
deriving DecidableEq

/-- A group record `{id, uuid, name, color, visible}`. -/
structure Group where
  id : Nat
  uuid : String
  name : String
  color : String
  visible : Bool
deriving DecidableEq

def defaultGroup : Group :=
  { id := 0, uuid := "", name := "", color := "", visible := true }

/-- An annotation record with the fields the import path reads or writes.
`groupId = 0` models a falsy/absent owning-group reference. -/
structure Ann where
  id : Nat
  uuid : String
  type : String
  name : String
  groupId : Nat
  points : List Pt
  faceData : Option (List String)
  boxData : Option BoxData
  projectedEdges : Option (List (List Pt))
  entries : List Entry
  nameVersions : List Version
  groupVersions : List Version
deriving DecidableEq

def defaultAnn : Ann :=
  { id := 0, uuid := "", type := "", name := "", groupId := 0, points := [],
    faceData := none, boxData := none, projectedEdges := none, entries := [],
    nameVersions := [], groupVersions := [] }

/-- The document slices the import mutates: `state.groups`,
`state.annotations`, `state.modelInfo.entries`. -/
structure AppState where
  groups : List Group
  annotations : List Ann
  modelInfoEntries : List Entry
deriving DecidableEq

/-- Platform services used by the import: ISO-timestamp parsing
(`new Date(x).getTime() || 0`) and the fresh-id / fresh-UUID entropy
(`Date.now() + Math.random()`, `generateUUID`), indexed by an allocation
counter threaded through the run. -/
structure ImportEnv where
  timeOf : String → Int
  freshId : Nat → Nat
  freshUuid : Nat → String

/-- A parsed W3C `AnnotationCollection` after field conversion: the declared
up-axis, the optional model-info entry list, `meshnotes:groups`, and the
annotations of `first.items`. -/
structure W3CDoc where
  upAxisZ : Bool
  modelInfo : Option (List Entry)
  groups : List Group
  annotations : List Ann
deriving DecidableEq

/-- `transformAnnotationCoords(ann)`: map every point (and a box payload's
center) from Z-up to Y-up when the imported file declared Z-up. -/
def transformAnnotationCoords (needsTransform : Bool) (a : Ann) : Ann :=
  if needsTransform then
    { a with points := a.points.map pointFromZUp,
             boxData := a.boxData.map (fun b => { b with center := pointFromZUp b.center }) }
  else a

/-- The latest-entry timestamp of an annotation:
`entries.length > 0 ? Math.max(...entries.map(e => new Date(entryTimestamp(e)).getTime() || 0)) : 0`. -/
def latestEntryTime (timeOf : String → Int) : List Entry → Int
  | [] => 0
  | e :: es => (es.map (fun e2 => timeOf (entryTimestamp e2))).foldl max
      (timeOf (entryTimestamp e))

/-- One iteration of the `meshnotes:groups` loop: match an imported group by
UUID first (when it has one), then by name; unmatched groups are inserted
with a fresh local id (and a generated UUID if missing).  On a match only the
`groupIdMap` — consumed by the out-of-scope W3C converter — is updated, so the
group list is unchanged. -/
def importGroupStep (env : ImportEnv) (acc : List Group × Nat) (ig : Group) :
    List Group × Nat :=
  let gs := acc.1
  let ctr := acc.2
  let byUuid := if ig.uuid ≠ "" then gs.find? (fun g => g.uuid == ig.uuid) else none
  let existing := match byUuid with
    | some g => some g
    | none => gs.find? (fun g => g.name == ig.name)
  match existing with
  | some _ => (gs, ctr)
  | none =>
    let ng : Group :=
      { id := env.freshId ctr,
        uuid := if ig.uuid = "" then env.freshUuid ctr else ig.uuid,
        name := ig.name, color := ig.color, visible := ig.visible }
    (gs ++ [ng], ctr + 1)

/-- Accumulator of the `first.items` annotation loop. -/
structure W3CAcc where
  st : AppState
  ctr : Nat
  added : Nat
  merged : Nat
  skipped : Nat
deriving DecidableEq

/-- One iteration of the `first.items.forEach` loop: transform coordinates,
assign the default group when none is set (creating it when no groups exist),
then either insert the annotation as new or merge it into the UUID-matched
local annotation — unioning name/group version histories, overwriting
metadata only when the imported latest entry timestamp is strictly newer, and
merging body entries; the merge is counted as `merged` exactly when it added
or updated at least one entry, else as `skipped`. -/
def importAnnStep (env : ImportEnv) (needsTransform : Bool) (acc : W3CAcc)
    (ia0 : Ann) : W3CAcc :=
  let ia1 := transformAnnotationCoords needsTransform ia0
  let st0 := acc.st
  let createDefault := ia1.groupId = 0 ∧ st0.groups = []
  let dg : Group :=
    { id := env.freshId acc.ctr, uuid := env.freshUuid acc.ctr,
      name := "Default", color := "#4CAF50", visible := true }
  let st1 := if createDefault then { st0 with groups := [dg] } else st0
  let ctr1 := if createDefault then acc.ctr + 1 else acc.ctr
  let ia := if ia1.groupId = 0 then
      { ia1 with groupId := (st1.groups.headD defaultGroup).id }
    else ia1
  match findFirstIdx (fun a => a.uuid == ia.uuid) st1.annotations with
  | none =>
    { acc with st := { st1 with annotations := st1.annotations ++ [ia] },
               ctr := ctr1, added := acc.added + 1 }
  | some k =>
    let a0 := st1.annotations.getD k defaultAnn
    let existingLatest := latestEntryTime env.timeOf a0.entries
    let importedLatest := latestEntryTime env.timeOf ia.entries
    let a1 := if ia.nameVersions = [] then a0
              else { a0 with nameVersions := mergeVersionHistories a0.nameVersions ia.nameVersions }
    let a2 := if ia.groupVersions = [] then a1
              else { a1 with groupVersions := mergeVersionHistories a1.groupVersions ia.groupVersions }
    let a3 := if existingLatest < importedLatest then
        { a2 with name := ia.name, groupId := ia.groupId, points := ia.points,
                  faceData := match ia.faceData with
                    | some fd => some fd
                    | none => a2.faceData,
                  boxData := match ia.boxData with
                    | some bd => some bd
                    | none => a2.boxData,
                  projectedEdges := match ia.projectedEdges with
                    | some pe => some pe
                    | none => a2.projectedEdges }
      else a2
    let r := mergeEntries a3.entries ia.entries
    let st2 := { st1 with annotations := st1.annotations.set k { a3 with entries := r.1 } }
    if 0 < r.2.1 ∨ 0 < r.2.2 then
      { acc with st := st2, ctr := ctr1, merged := acc.merged + 1 }
    else
      { acc with st := st2, ctr := ctr1, skipped := acc.skipped + 1 }

/-- `importW3CAnnotations(data)` — the merge core (lines 42–284 of
`import-json.js`): merge model-info entries, reconcile groups, then merge the
annotations of the first page; returns the mutated document state together
with `(addedCount, mergedCount, skippedCount)`.  The trailing
`reprojectAllAnnotations` / UI refresh calls are the post-merge rendering
pass handed to the Surface Projector and are outside the merge engine
modelled here. -/
def importW3CAnnotations (env : ImportEnv) (ctr : Nat) (st : AppState)
    (doc : W3CDoc) : AppState × Nat × Nat × Nat :=
  let needsTransform := doc.upAxisZ
  let st1 := match doc.modelInfo with
    | none => st
    | some ies => { st with modelInfoEntries := (mergeEntries st.modelInfoEntries ies).1 }
  let gr := doc.groups.foldl (importGroupStep env) (st1.groups, ctr)
  let st2 := { st1 with groups := gr.1 }
  let acc := doc.annotations.foldl (importAnnStep env needsTransform)
      { st := st2, ctr := gr.2, added := 0, merged := 0, skipped := 0 }
  (acc.st, acc.added, acc.merged, acc.skipped)

/-- A legacy MeshNotes document: optional model-info entries plus the
mandatory `groups` and `annotations`. -/
structure LegacyDoc where
  modelInfo : Option (List Entry)
  groups : List Group
  annotations : List Ann
deriving DecidableEq

/-- `importLegacyAnnotations(data)`: append model-info entries with fresh ids
(generating missing UUIDs), merge groups by name while retargeting the
imported annotations' `groupId`s, then append all annotations with fresh ids
and defaulted UUIDs; reports the number of imported annotations. -/
def importLegacyAnnotations (env : ImportEnv) (ctr : Nat) (st : AppState)
    (doc : LegacyDoc) : AppState × Nat :=
  let miStep : List Entry × Nat → Entry → List Entry × Nat := fun acc entry =>
    let ne : Entry :=
      { entry with id := env.freshId acc.2,
                   uuid := if entry.uuid = "" then env.freshUuid acc.2 else entry.uuid }
    (acc.1 ++ [ne], acc.2 + 1)
  let mi := match doc.modelInfo with
    | none => (st.modelInfoEntries, ctr)
    | some ies => ies.foldl miStep (st.modelInfoEntries, ctr)
  let gStep : List Group × List Ann × Nat → Group → List Group × List Ann × Nat :=
    fun acc ig =>
      let gs := acc.1
      let anns := acc.2.1
      let c := acc.2.2
      match gs.find? (fun g => g.name == ig.name) with
      | none =>
        let newId := env.freshId c
        let ng : Group :=
          { ig with id := newId,
                    uuid := if ig.uuid = "" then env.freshUuid c else ig.uuid }
        (gs ++ [ng],
         anns.map (fun a => if a.groupId = ig.id then { a with groupId := newId } else a),
         c + 1)
      | some ex =>
        (gs, anns.map (fun a => if a.groupId = ig.id then { a with groupId := ex.id } else a),
         c)
  let g := doc.groups.foldl gStep (st.groups, doc.annotations, mi.2)
  let aStep : List Ann × Nat → Ann → List Ann × Nat := fun acc ann =>
    let entRes := ann.entries.foldl
      (fun (p : List Entry × Nat) e =>
        if e.uuid = "" then (p.1 ++ [{ e with uuid := env.freshUuid p.2 }], p.2 + 1)
        else (p.1 ++ [e], p.2))
      (([] : List Entry), acc.2 + 1)
    let na : Ann :=
      { ann with id := env.freshId acc.2,
                 uuid := if ann.uuid = "" then env.freshUuid acc.2 else ann.uuid,
                 entries := entRes.1 }
    (acc.1 ++ [na], entRes.2)
  let a := g.2.1.foldl aStep (st.annotations, g.2.2)
  ({ groups := g.1, annotations := a.1, modelInfoEntries := mi.1 },
   doc.annotations.length)

/-- The top-level shape of a parsed import file: the truthiness of
`data['@context']`, `data.type === 'AnnotationCollection'`, `data.groups`,
`data.annotations`, plus the payloads each branch would consume. -/
structure RawDoc where
  hasContext : Bool
  typeIsAnnotationCollection : Bool
  hasGroups : Bool
  hasAnnotations : Bool
  w3c : W3CDoc
  legacy : LegacyDoc
deriving DecidableEq

/-- The user-visible outcome reported by `showStatus` in `importAnnotations`. -/
inductive ImportStatus where
  | w3cImported (added merged skipped : Nat)
  | legacyImported (count : Nat)
  | invalidFormat
deriving DecidableEq

/-- `importAnnotations(file)` after `JSON.parse` succeeded: dispatch on the
top-level document shape — W3C collection, legacy document, or the
`'Invalid annotation file format'` rejection that leaves the document
untouched. -/
def importAnnotations (env : ImportEnv) (ctr : Nat) (st : AppState)
    (raw : RawDoc) : AppState × ImportStatus :=
  if raw.hasContext && raw.typeIsAnnotationCollection then
    let r := importW3CAnnotations env ctr st raw.w3c
    (r.1, .w3cImported r.2.1 r.2.2.1 r.2.2.2)
  else if raw.hasGroups && raw.hasAnnotations then
    let r := importLegacyAnnotations env ctr st raw.legacy
    (r.1, .legacyImported r.2)
  else (st, .invalidFormat)

/-! ## Helper lemmas -/

theorem findFirstIdx_lt_length {α : Type} (p : α → Bool) :
    ∀ (l : List α) (i : Nat), findFirstIdx p l = some i → i < l.length := by
  intro l
  induction l with
  | nil => intro i h; simp [findFirstIdx] at h
  | cons x xs ih =>
    intro i h
    by_cases hp : p x
    · simp [findFirstIdx, hp] at h
      simp
      omega
    · simp [findFirstIdx, hp] at h
      obtain ⟨j, hj, rfl⟩ := h
      have := ih j hj
      simp
      omega

theorem findMatchIdx_lt_length (es : List Entry) (ie : Entry) (i : Nat)
    (h : findMatchIdx es ie = some i) : i < es.length := by
  unfold findMatchIdx at h
  rcases heq : findFirstIdx (fun e => e.uuid == ie.uuid) es with _ | j
  · rw [heq] at h
    exact findFirstIdx_lt_length _ es i h
  · rw [heq] at h
    cases h
    exact findFirstIdx_lt_length _ es i heq

theorem getD_set_self {α : Type} (l : List α) (i : Nat) (v d : α)
    (h : i < l.length) : (l.set i v).getD i d = v := by
  simp [List.getD, List.getElem?_set_self, h]

theorem getD_set_ne {α : Type} (l : List α) (i j : Nat) (v d : α)
    (h : i ≠ j) : (l.set i v).getD j d = l.getD j d := by
  simp [List.getD, List.getElem?_set_ne h]

theorem entryTimestamp_set_versions (e : Entry) (vs : List Version) :
    entryTimestamp { e with versions := vs } = entryTimestamp e := rfl

theorem entryContent_set_versions (e : Entry) (vs : List Version) :
    entryContent { e with versions := vs } = entryContent e := rfl

/-! ## Claim theorems -/

/-- C6: with `K = FACE_ID_MULTIPLIER = 10,000,000` and `triangleIndex < K`,
floor-division/modulo decoding of `meshIndex * K + triangleIndex` recovers
exactly the pair, so in-bounds face identifiers never collide. -/
theorem spec_c6 (m1 t1 m2 t2 : Nat) (h1 : t1 < FACE_ID_MULTIPLIER)
    (h2 : t2 < FACE_ID_MULTIPLIER) :
    decodeFaceId (encodeFaceId m1 t1) = (m1, t1) ∧
    (encodeFaceId m1 t1 = encodeFaceId m2 t2 → m1 = m2 ∧ t1 = t2) := by
  constructor
  · unfold decodeFaceId encodeFaceId FACE_ID_MULTIPLIER at *
    have hd : (m1 * 10000000 + t1) / 10000000 = m1 := by omega
    have hm : (m1 * 10000000 + t1) % 10000000 = t1 := by omega
    rw [hd, hm]
  · intro h
    unfold encodeFaceId FACE_ID_MULTIPLIER at *
    omega

/-- Witness for C6 at `(meshIndex, triangleIndex) = (3, 5)` against `(9, 7)`. -/
theorem spec_c6_witness :
    5 < FACE_ID_MULTIPLIER ∧
      (decodeFaceId (encodeFaceId 3 5) = (3, 5) ∧
        (encodeFaceId 3 5 = encodeFaceId 9 7 → 3 = 9 ∧ 5 = 7)) := by
  have h1 : 5 < FACE_ID_MULTIPLIER := by norm_num [FACE_ID_MULTIPLIER]
  have h2 : 7 < FACE_ID_MULTIPLIER := by norm_num [FACE_ID_MULTIPLIER]
  exact ⟨h1, spec_c6 3 5 9 7 h1 h2⟩

/-- Unfolding of `mergeOneEntry` when the imported entry matched at index `i`. -/
theorem mergeOneEntry_matched (es : List Entry) (ie : Entry)
    (added updated i : Nat) (h : findMatchIdx es ie = some i) :
    mergeOneEntry (es, added, updated) ie =
      (let e := es.getD i defaultEntry
       let e1 := if ie.versions = [] then e
                 else { e with versions := mergeVersionHistories e.versions ie.versions }
       if entryTimestamp e1 < entryTimestamp ie then
         (es.set i { e1 with description := ie.description, author := ie.author,
                             modified := ie.modified, links := ie.links },
          added, updated + 1)
       else (es.set i e1, added, updated)) := by
  simp only [mergeOneEntry, h]

/-- The effective timestamp ignores the `versions` field, so it is unchanged
by the version-history union performed before the comparison. -/
theorem entryTimestamp_afterVersionMerge (e : Entry) (ie : Entry) :
    entryTimestamp (if ie.versions = [] then e
      else { e with versions := mergeVersionHistories e.versions ie.versions }) =
    entryTimestamp e := by
  by_cases hv : ie.versions = [] <;> simp [hv, entryTimestamp_set_versions]

/-- C1: for a matched entry pair (`findMatchIdx`, i.e. same UUID or the
content-equality fallback), the imported entry's content fields
(`description`, `author`, `modified`, `links`) overwrite the local entry's
exactly when the imported effective timestamp is strictly greater; otherwise
the local entry's content fields are unchanged. -/
theorem spec_c1 (es : List Entry) (ie : Entry) (added updated i : Nat)
    (h : findMatchIdx es ie = some i) :
    (entryTimestamp (es.getD i defaultEntry) < entryTimestamp ie →
        entryContent ((mergeOneEntry (es, added, updated) ie).1.getD i defaultEntry) =
          entryContent ie) ∧
    (¬ entryTimestamp (es.getD i defaultEntry) < entryTimestamp ie →
        entryContent ((mergeOneEntry (es, added, updated) ie).1.getD i defaultEntry) =
          entryContent (es.getD i defaultEntry)) := by
  have hlt := findMatchIdx_lt_length es ie i h
  rw [mergeOneEntry_matched es ie added updated i h]
  simp only []
  have hts := entryTimestamp_afterVersionMerge (es.getD i defaultEntry) ie
  by_cases hc : entryTimestamp (es.getD i defaultEntry) < entryTimestamp ie
  · rw [if_pos (by rw [hts]; exact hc)]
    constructor
    · intro _
      rw [getD_set_self es i _ defaultEntry hlt]
      rfl
    · intro habs
      exact absurd hc habs
  · rw [if_neg (by rw [hts]; exact hc)]
    refine ⟨fun habs => absurd habs hc, fun _ => ?_⟩
    rw [getD_set_self es i _ defaultEntry hlt]
    by_cases hv : ie.versions = [] <;> simp [hv, entryContent_set_versions]

/-- Witness for C1: a two-entry local list where the imported entry matches
the entry at index 1 by UUID and carries a strictly newer modified time. -/
theorem spec_c1_witness :
    (let e0 : Entry := { id := 1, uuid := "a", description := "x", author := "p",
                         timestamp := "2024-01-01", links := [], versions := [] }
     let e1 : Entry := { id := 2, uuid := "b", description := "y", author := "q",
                         timestamp := "2024-01-02", links := [], versions := [] }
     let ie : Entry := { id := 3, uuid := "b", description := "z", author := "r",
                         timestamp := "2024-01-02", modified := "2024-03-01",
                         links := ["l"], versions := [] }
     findMatchIdx [e0, e1] ie = some 1 ∧
       ((entryTimestamp ([e0, e1].getD 1 defaultEntry) < entryTimestamp ie →
           entryContent ((mergeOneEntry ([e0, e1], 0, 0) ie).1.getD 1 defaultEntry) =
             entryContent ie) ∧
        (¬ entryTimestamp ([e0, e1].getD 1 defaultEntry) < entryTimestamp ie →
           entryContent ((mergeOneEntry ([e0, e1], 0, 0) ie).1.getD 1 defaultEntry) =
             entryContent ([e0, e1].getD 1 defaultEntry)))) := by
  refine ⟨by decide, spec_c1 _ _ 0 0 1 (by decide)⟩

/-- C10: when the imported entry wins the timestamp comparison, the merge
overwrites only content fields: the matched local entry keeps its UUID, its
session-local numeric id, its creation timestamp (and the raw-shape `created`
field), and no entry is added or removed. -/
theorem spec_c10 (es : List Entry) (ie : Entry) (added updated i : Nat)
    (h : findMatchIdx es ie = some i)
    (hwin : entryTimestamp (es.getD i defaultEntry) < entryTimestamp ie) :
    ((mergeOneEntry (es, added, updated) ie).1.getD i defaultEntry).uuid =
        (es.getD i defaultEntry).uuid ∧
    ((mergeOneEntry (es, added, updated) ie).1.getD i defaultEntry).id =
        (es.getD i defaultEntry).id ∧
    ((mergeOneEntry (es, added, updated) ie).1.getD i defaultEntry).timestamp =
        (es.getD i defaultEntry).timestamp ∧
    ((mergeOneEntry (es, added, updated) ie).1.getD i defaultEntry).created =
        (es.getD i defaultEntry).created ∧
    (mergeOneEntry (es, added, updated) ie).1.length = es.length := by
  have hlt := findMatchIdx_lt_length es ie i h
  rw [mergeOneEntry_matched es ie added updated i h]
  simp only []
  rw [if_pos (by rw [entryTimestamp_afterVersionMerge]; exact hwin)]
  rw [getD_set_self es i _ defaultEntry hlt]
  by_cases hv : ie.versions = [] <;> simp [hv, List.length_set]

theorem addNewVersions_covers (im : List Version) :
    ∀ (seen : List String), ∀ v ∈ im,
      v.savedAt ∈ seen ∨ ∃ w ∈ addNewVersions seen im, w.savedAt = v.savedAt := by
  induction im with
  | nil => simp
  | cons hd tl ih =>
    intro seen v hv
    by_cases hh : hd.savedAt ∈ seen
    · simp only [addNewVersions, if_pos hh]
      rcases List.mem_cons.mp hv with rfl | hv2
      · exact Or.inl hh
      · exact ih seen v hv2
    · simp only [addNewVersions, if_neg hh]
      rcases List.mem_cons.mp hv with rfl | hv2
      · exact Or.inr ⟨v, List.mem_cons_self _ _, rfl⟩
      · rcases ih (hd.savedAt :: seen) v hv2 with hmem | ⟨w, hw, hweq⟩
        · rcases List.mem_cons.mp hmem with heq | hseen
          · exact Or.inr ⟨hd, List.mem_cons_self _ _, heq.symm⟩
          · exact Or.inl hseen
        · exact Or.inr ⟨w, List.mem_cons_of_mem _ hw, hweq⟩

theorem mem_mergeVersionHistories_left (ex im : List Version) :
    ∀ v ∈ ex, v ∈ mergeVersionHistories ex im := by
  intro v hv
  unfold mergeVersionHistories
  by_cases h : im = []
  · rw [if_pos h]; exact hv
  · rw [if_neg h]
    exact (List.perm_insertionSort vLe _).mem_iff.mpr (List.mem_append_left _ hv)

theorem savedAt_cover_mergeVersionHistories (ex im : List Version) :
    ∀ v ∈ im, ∃ w ∈ mergeVersionHistories ex im, w.savedAt = v.savedAt := by
  intro v hv
  unfold mergeVersionHistories
  by_cases h : im = []
  · subst h; simp at hv
  · rw [if_neg h]
    rcases addNewVersions_covers im (ex.map fun x => x.savedAt) v hv with hseen | ⟨w, hw, hweq⟩
    · rcases List.mem_map.mp hseen with ⟨w, hw, hweq⟩
      exact ⟨w, (List.perm_insertionSort vLe _).mem_iff.mpr (List.mem_append_left _ hw), hweq⟩
    · exact ⟨w, (List.perm_insertionSort vLe _).mem_iff.mpr (List.mem_append_right _ hw), hweq⟩

theorem sorted_mergeVersionHistories (ex im : List Version)
    (hs : List.Sorted vLe ex) : List.Sorted vLe (mergeVersionHistories ex im) := by
  unfold mergeVersionHistories
  by_cases h : im = []
  · rw [if_pos h]; exact hs
  · rw [if_neg h]; exact List.sorted_insertionSort vLe _

theorem perm_mergeVersionHistories (ex im : List Version) :
    List.Perm (mergeVersionHistories ex im)
      (ex ++ addNewVersions (ex.map fun v => v.savedAt) im) := by
  unfold mergeVersionHistories
  by_cases h : im = []
  · subst h; simp [addNewVersions]
  · rw [if_neg h]; exact List.perm_insertionSort vLe _

/-- The merged entry's version list of a matched pair, independent of which
side won the content comparison. -/
theorem mergeOneEntry_versions (es : List Entry) (ie : Entry)
    (added updated i : Nat) (h : findMatchIdx es ie = some i) :
    ((mergeOneEntry (es, added, updated) ie).1.getD i defaultEntry).versions =
      (if ie.versions = [] then (es.getD i defaultEntry).versions
       else mergeVersionHistories (es.getD i defaultEntry).versions ie.versions) := by
  have hlt := findMatchIdx_lt_length es ie i h
  rw [mergeOneEntry_matched es ie added updated i h]
  simp only []
  by_cases hc : entryTimestamp (if ie.versions = [] then es.getD i defaultEntry
      else { es.getD i defaultEntry with
             versions := mergeVersionHistories (es.getD i defaultEntry).versions ie.versions }) <
      entryTimestamp ie
  · rw [if_pos hc, getD_set_self es i _ defaultEntry hlt]
    by_cases hv : ie.versions = [] <;> simp [hv]
  · rw [if_neg hc, getD_set_self es i _ defaultEntry hlt]
    by_cases hv : ie.versions = [] <;> simp [hv]

/-- C2: for a matched entry pair, whatever the content outcome, the merged
version list keeps every local snapshot, carries a snapshot for every
imported snapshot's `savedAt`, is chronologically sorted, and is a
permutation of the local list together with exactly the imported snapshots
whose `savedAt` was not yet present (the savedAt-deduplicated union). -/
theorem spec_c2 (es : List Entry) (ie : Entry) (added updated i : Nat)
    (h : findMatchIdx es ie = some i)
    (hs : List.Sorted vLe ((es.getD i defaultEntry).versions)) :
    (∀ v ∈ (es.getD i defaultEntry).versions,
        v ∈ ((mergeOneEntry (es, added, updated) ie).1.getD i defaultEntry).versions) ∧
    (∀ v ∈ ie.versions,
        ∃ w ∈ ((mergeOneEntry (es, added, updated) ie).1.getD i defaultEntry).versions,
          w.savedAt = v.savedAt) ∧
    List.Sorted vLe ((mergeOneEntry (es, added, updated) ie).1.getD i defaultEntry).versions ∧
    List.Perm ((mergeOneEntry (es, added, updated) ie).1.getD i defaultEntry).versions
      ((es.getD i defaultEntry).versions ++
        addNewVersions ((es.getD i defaultEntry).versions.map fun v => v.savedAt)
          ie.versions) := by
  rw [mergeOneEntry_versions es ie added updated i h]
  by_cases hv : ie.versions = []
  · rw [if_pos hv, hv]
    exact ⟨fun v hv2 => hv2, by simp, hs, by simp [addNewVersions]⟩
  · rw [if_neg hv]
    exact ⟨mem_mergeVersionHistories_left _ _, savedAt_cover_mergeVersionHistories _ _,
      sorted_mergeVersionHistories _ _ hs, perm_mergeVersionHistories _ _⟩

/-- Witness for C2: the matched local entry holds one snapshot, the imported
entry two (one duplicating the local `savedAt`). -/
theorem spec_c2_witness :
    (let v1 : Version := { description := "old", author := "p", links := [],
                           savedAt := "2024-01-01" }
     let v2 : Version := { description := "older", author := "p", links := [],
                           savedAt := "2023-12-31" }
     let e : Entry := { id := 1, uuid := "u", description := "x", author := "p",
                        timestamp := "2024-01-02", links := [], versions := [v1] }
     let ie : Entry := { id := 2, uuid := "u", description := "y", author := "q",
                         timestamp := "2024-01-02", links := [], versions := [v1, v2] }
     findMatchIdx [e] ie = some 0 ∧
       List.Sorted vLe (([e].getD 0 defaultEntry).versions) ∧
       ((∀ v ∈ ([e].getD 0 defaultEntry).versions,
            v ∈ ((mergeOneEntry ([e], 0, 0) ie).1.getD 0 defaultEntry).versions) ∧
        (∀ v ∈ ie.versions,
            ∃ w ∈ ((mergeOneEntry ([e], 0, 0) ie).1.getD 0 defaultEntry).versions,
              w.savedAt = v.savedAt) ∧
        List.Sorted vLe ((mergeOneEntry ([e], 0, 0) ie).1.getD 0 defaultEntry).versions ∧
        List.Perm ((mergeOneEntry ([e], 0, 0) ie).1.getD 0 defaultEntry).versions
          (([e].getD 0 defaultEntry).versions ++
            addNewVersions ((([e].getD 0 defaultEntry).versions).map fun v => v.savedAt)
              ie.versions))) := by
  exact ⟨by decide, by decide, spec_c2 _ _ 0 0 0 (by decide) (by decide)⟩

/-- Witness for C10 at the same kind of concrete instance as C1's. -/
theorem spec_c10_witness :
    (let e1 : Entry := { id := 2, uuid := "b", description := "y", author := "q",
                         timestamp := "2024-01-02", links := [], versions := [] }
     let ie : Entry := { id := 3, uuid := "b", description := "z", author := "r",
                         timestamp := "2024-01-02", modified := "2024-03-01",
                         links := ["l"], versions := [] }
     findMatchIdx [e1] ie = some 0 ∧
       entryTimestamp ([e1].getD 0 defaultEntry) < entryTimestamp ie ∧
       (((mergeOneEntry ([e1], 5, 6) ie).1.getD 0 defaultEntry).uuid =
           ([e1].getD 0 defaultEntry).uuid ∧
        ((mergeOneEntry ([e1], 5, 6) ie).1.getD 0 defaultEntry).id =
           ([e1].getD 0 defaultEntry).id ∧
        ((mergeOneEntry ([e1], 5, 6) ie).1.getD 0 defaultEntry).timestamp =
           ([e1].getD 0 defaultEntry).timestamp ∧
        ((mergeOneEntry ([e1], 5, 6) ie).1.getD 0 defaultEntry).created =
           ([e1].getD 0 defaultEntry).created ∧
        (mergeOneEntry ([e1], 5, 6) ie).1.length = [e1].length)) := by
  refine ⟨by decide, by decide, spec_c10 _ _ 5 6 0 (by decide) (by decide)⟩

/-- Counterexample to C3 as stated: a local entry `{desc:"A", modified:t1}`
merged with a same-UUID imported entry `{desc:"B", modified:t2}`, `t2 > t1`,
both without version history.  The description becomes `"B"` but the merged
version list stays empty — `mergeEntries` never snapshots the overwritten
local content, so no new snapshot preserving `"A"` is created. -/
theorem spec_c3_counterexample :
    (let e : Entry := { id := 1, uuid := "u-1", description := "A",
                        author := "alice", timestamp := "2024-01-01T00:00:00Z",
                        modified := "2024-01-03T00:00:00Z", links := [],
                        versions := [] }
     let ie : Entry := { id := 2, uuid := "u-1", description := "B",
                         author := "bob", timestamp := "2024-01-01T00:00:00Z",
                         modified := "2024-01-05T00:00:00Z", links := [],
                         versions := [] }
     entryTimestamp e < entryTimestamp ie ∧
       (mergeEntries [e] [ie]).1.length = 1 ∧
       ((mergeEntries [e] [ie]).1.getD 0 defaultEntry).description = "B" ∧
       ((mergeEntries [e] [ie]).1.getD 0 defaultEntry).versions = []) := by
  decide

/-- C3 (amended): with a strictly newer same-UUID import, the local entry's
description becomes `"B"`, but the merged version list is exactly the
savedAt-union of the two sides' prior version lists — the merge itself adds
no snapshot; in particular the single snapshot preserving `"A"` is present
exactly when the imported entry carried it in its own history. -/
theorem spec_c3 (e ie : Entry) (hu : e.uuid = ie.uuid)
    (hB : ie.description = "B")
    (ht : entryTimestamp e < entryTimestamp ie) :
    (mergeEntries [e] [ie]).1.length = 1 ∧
    ((mergeEntries [e] [ie]).1.getD 0 defaultEntry).description = "B" ∧
    ((mergeEntries [e] [ie]).1.getD 0 defaultEntry).versions =
      (if ie.versions = [] then e.versions
       else mergeVersionHistories e.versions ie.versions) ∧
    (e.versions = [] → ∀ v : Version, ie.versions = [v] →
       ((mergeEntries [e] [ie]).1.getD 0 defaultEntry).versions = [v]) := by
  have hmatch : findMatchIdx [e] ie = some 0 := by
    simp [findMatchIdx, findFirstIdx, hu]
  have hstep : ([ie].foldl mergeOneEntry ([e], 0, 0)) = mergeOneEntry ([e], 0, 0) ie := rfl
  have hts := entryTimestamp_afterVersionMerge (([e] : List Entry).getD 0 defaultEntry) ie
  have hgd : ([e] : List Entry).getD 0 defaultEntry = e := rfl
  rw [hgd] at hts
  have hone : mergeOneEntry ([e], 0, 0) ie =
      (([e] : List Entry).set 0
        { (if ie.versions = [] then e
           else { e with versions := mergeVersionHistories e.versions ie.versions }) with
          description := ie.description, author := ie.author,
          modified := ie.modified, links := ie.links }, 0, 0 + 1) := by
    rw [mergeOneEntry_matched [e] ie 0 0 0 hmatch]
    simp only [hgd]
    rw [if_pos (by rw [hts]; exact ht)]
  have hlist : (mergeEntries [e] [ie]).1 =
      sortEntries (mergeOneEntry ([e], 0, 0) ie).1 := rfl
  rw [hlist, hone]
  simp only [List.set]
  have hsort : ∀ x : Entry, sortEntries [x] = [x] := fun x => rfl
  by_cases hv : ie.versions = []
  · rw [if_pos hv]
    refine ⟨by simp [hv, sortEntries, List.insertionSort], ?_, ?_, ?_⟩
    · simp [hv, sortEntries, List.insertionSort, List.getD, hB]
    · simp [hv, sortEntries, List.insertionSort, List.getD]
    · intro _ v hvv
      rw [hvv] at hv
      simp at hv
  · rw [if_neg hv]
    refine ⟨by simp [sortEntries, List.insertionSort], ?_, ?_, ?_⟩
    · simp [sortEntries, List.insertionSort, List.getD, hB]
    · simp [sortEntries, List.insertionSort, List.getD, hv]
    · intro he v hvv
      simp [sortEntries, List.insertionSort, List.getD, he, hvv,
        mergeVersionHistories, addNewVersions, sortVersions]

/-- Witness for C3 (amended): the imported entry carries the `"A"` snapshot
in its own version history; after the merge the description is `"B"` and that
single snapshot is the whole version list. -/
theorem spec_c3_witness :
    (let v : Version := { description := "A", author := "alice", links := [],
                          savedAt := "2024-01-04T00:00:00Z" }
     let e : Entry := { id := 1, uuid := "u-2", description := "A",
                        author := "alice", timestamp := "2024-01-01T00:00:00Z",
                        modified := "2024-01-03T00:00:00Z", links := [],
                        versions := [] }
     let ie : Entry := { id := 2, uuid := "u-2", description := "B",
                         author := "bob", timestamp := "2024-01-01T00:00:00Z",
                         modified := "2024-01-05T00:00:00Z", links := [],
                         versions := [v] }
     e.uuid = ie.uuid ∧ ie.description = "B" ∧
       entryTimestamp e < entryTimestamp ie ∧
       ((mergeEntries [e] [ie]).1.length = 1 ∧
        ((mergeEntries [e] [ie]).1.getD 0 defaultEntry).description = "B" ∧
        ((mergeEntries [e] [ie]).1.getD 0 defaultEntry).versions =
          (if ie.versions = [] then e.versions
           else mergeVersionHistories e.versions ie.versions) ∧
        (e.versions = [] → ∀ v2 : Version, ie.versions = [v2] →
           ((mergeEntries [e] [ie]).1.getD 0 defaultEntry).versions = [v2]))) := by
  exact ⟨rfl, rfl, by decide, spec_c3 _ _ rfl rfl (by decide)⟩

theorem updateEdge_length {P : Type} (proj : P → P → Option (List P))
    (accept : List P → P → P → Bool) (pts : List P) (es : List (List P))
    (k ia ib : Nat) :
    (updateEdge proj accept pts es k ia ib).length = es.length := by
  unfold updateEdge
  cases hia : pts.get? ia <;> cases hib : pts.get? ib <;>
    simp [List.length_set]

theorem updateEdge_getD_ne {P : Type} (proj : P → P → Option (List P))
    (accept : List P → P → P → Bool) (pts : List P) (es : List (List P))
    (k ia ib j : Nat) (h : k ≠ j) :
    (updateEdge proj accept pts es k ia ib).getD j [] = es.getD j [] := by
  unfold updateEdge
  cases hia : pts.get? ia with
  | none => rfl
  | some a =>
    cases hib : pts.get? ib with
    | none => rfl
    | some b => exact getD_set_ne es k j _ [] h

theorem recomputePrevStage_length {P : Type} (proj : P → P → Option (List P))
    (accept : List P → P → P → Bool) (type : String) (pts : List P)
    (i : Nat) (es : List (List P)) :
    (recomputePrevStage proj accept type pts i es).length = es.length := by
  unfold recomputePrevStage
  split_ifs <;> simp [updateEdge_length]

theorem recomputeNextStage_length {P : Type} (proj : P → P → Option (List P))
    (accept : List P → P → P → Bool) (type : String) (pts : List P)
    (i : Nat) (es1 : List (List P)) :
    (recomputeNextStage proj accept type pts i es1).length = es1.length := by
  unfold recomputeNextStage
  split_ifs <;> simp [updateEdge_length]

theorem recomputeEdgesList_length {P : Type} (proj : P → P → Option (List P))
    (accept : List P → P → P → Bool) (type : String) (pts : List P)
    (i : Nat) (es : List (List P)) :
    (recomputeEdgesList proj accept type pts i es).length = es.length := by
  unfold recomputeEdgesList
  rw [recomputeNextStage_length, recomputePrevStage_length]

theorem recomputePrevStage_getD_frame {P : Type} (proj : P → P → Option (List P))
    (accept : List P → P → P → Bool) (type : String) (pts : List P)
    (i : Nat) (es : List (List P)) (j : Nat)
    (hj1 : (j : Int) ≠ prevEdgeIdx type i pts.length) :
    (recomputePrevStage proj accept type pts i es).getD j [] = es.getD j [] := by
  unfold recomputePrevStage
  split_ifs with hg hb
  · refine updateEdge_getD_ne _ _ _ _ _ _ _ _ ?_
    intro heq
    apply hj1
    rw [← heq]
    exact Int.toNat_of_nonneg hg.1
  · rfl
  · rfl

theorem recomputeNextStage_getD_frame {P : Type} (proj : P → P → Option (List P))
    (accept : List P → P → P → Bool) (type : String) (pts : List P)
    (i : Nat) (es1 : List (List P)) (j : Nat)
    (hj2 : j ≠ i)
    (hj3 : ¬(type = "polygon" ∧ (i : Int) = (pts.length : Int) - 1 ∧
        (j : Int) = (es1.length : Int) - 1)) :
    (recomputeNextStage proj accept type pts i es1).getD j [] = es1.getD j [] := by
  unfold recomputeNextStage
  split_ifs with hnext hbound hclose hzero
  · exact updateEdge_getD_ne _ _ _ _ _ _ _ _ (fun heq => hj2 heq.symm)
  · rfl
  · rfl
  · refine updateEdge_getD_ne _ _ _ _ _ _ _ _ ?_
    intro heq
    apply hj3
    refine ⟨hclose.1, hclose.2, ?_⟩
    omega
  · rfl

theorem recomputeEdgesList_getD_frame {P : Type} (proj : P → P → Option (List P))
    (accept : List P → P → P → Bool) (type : String) (pts : List P)
    (i : Nat) (es : List (List P)) (j : Nat)
    (hj1 : (j : Int) ≠ prevEdgeIdx type i pts.length)
    (hj2 : j ≠ i)
    (hj3 : ¬(type = "polygon" ∧ (i : Int) = (pts.length : Int) - 1 ∧
        (j : Int) = (es.length : Int) - 1)) :
    (recomputeEdgesList proj accept type pts i es).getD j [] = es.getD j [] := by
  unfold recomputeEdgesList
  rw [recomputeNextStage_getD_frame proj accept type pts i _ j hj2
      (by rw [recomputePrevStage_length]; exact hj3)]
  exact recomputePrevStage_getD_frame proj accept type pts i es j hj1

/-- C8: dragging point `i` rewrites at most the edge ending at `i`
(`prevEdgeIdx`), the edge starting at `i`, and — for the last point of a
closed polygon — the closing edge; every other cached edge (and the cache
length) is untouched.  In particular for an open 4-point polyline with cached
edges `[e0, e1, e2]`, moving point index 2 recomputes exactly `e1` and `e2`,
leaving `e0` unchanged. -/
theorem spec_c8 {P : Type} (proj : P → P → Option (List P))
    (accept : List P → P → P → Bool) (ann : ProjAnn P) (i : Nat)
    (es : List (List P)) (h : ann.projectedEdges = some es) :
    ((recomputeAdjacentEdges proj accept ann i).projectedEdges =
        some (recomputeEdgesList proj accept ann.type ann.points i es) ∧
      (recomputeEdgesList proj accept ann.type ann.points i es).length = es.length ∧
      ∀ j : Nat, (j : Int) ≠ prevEdgeIdx ann.type i ann.points.length →
        j ≠ i →
        ¬(ann.type = "polygon" ∧ (i : Int) = (ann.points.length : Int) - 1 ∧
            (j : Int) = (es.length : Int) - 1) →
        (recomputeEdgesList proj accept ann.type ann.points i es).getD j [] =
          es.getD j []) ∧
    (∀ p0 p1 p2 p3 : P, ∀ e0 e1 e2 : List P,
       recomputeAdjacentEdges proj accept
           { type := "line", points := [p0, p1, p2, p3],
             projectedEdges := some [e0, e1, e2] } 2 =
         { type := "line", points := [p0, p1, p2, p3],
           projectedEdges := some [e0, edgeFor proj accept p1 p2,
                                   edgeFor proj accept p2 p3] }) := by
  refine ⟨⟨?_, recomputeEdgesList_length _ _ _ _ _ _,
    fun j hj1 hj2 hj3 =>
      recomputeEdgesList_getD_frame _ _ _ _ _ _ _ hj1 hj2 hj3⟩, ?_⟩
  · simp only [recomputeAdjacentEdges, h]
  · intro p0 p1 p2 p3 e0 e1 e2
    rfl

/-- Witness for C8: a 4-point open polyline over `P = Nat`, moving point 2,
with a projection environment that always falls back to straight edges. -/
theorem spec_c8_witness :
    (let proj : Nat → Nat → Option (List Nat) := fun _ _ => none
     let accept : List Nat → Nat → Nat → Bool := fun _ _ _ => true
     let ann : ProjAnn Nat := { type := "line", points := [10, 11, 12, 13], projectedEdges := some [[9], [8], [7]] }
     ann.projectedEdges = some [[9], [8], [7]] ∧
       (((recomputeAdjacentEdges proj accept ann 2).projectedEdges =
           some (recomputeEdgesList proj accept ann.type ann.points 2 [[9], [8], [7]]) ∧
         (recomputeEdgesList proj accept ann.type ann.points 2 [[9], [8], [7]]).length =
           ([[9], [8], [7]] : List (List Nat)).length ∧
         ∀ j : Nat, (j : Int) ≠ prevEdgeIdx ann.type 2 ann.points.length →
           j ≠ 2 →
           ¬(ann.type = "polygon" ∧ (2 : Int) = (ann.points.length : Int) - 1 ∧
               (j : Int) = (([[9], [8], [7]] : List (List Nat)).length : Int) - 1) →
           (recomputeEdgesList proj accept ann.type ann.points 2 [[9], [8], [7]]).getD j [] =
             ([[9], [8], [7]] : List (List Nat)).getD j []) ∧
       (∀ p0 p1 p2 p3 : Nat, ∀ e0 e1 e2 : List Nat,
          recomputeAdjacentEdges proj accept ({ type := "line", points := [p0, p1, p2, p3], projectedEdges := some [e0, e1, e2] } : ProjAnn Nat) 2 =
            ({ type := "line", points := [p0, p1, p2, p3], projectedEdges := some [e0, edgeFor proj accept p1 p2, edgeFor proj accept p2 p3] } : ProjAnn Nat)))) := by
  exact ⟨rfl, spec_c8 (fun _ _ => none) (fun _ _ _ => true) _ 2 [[9], [8], [7]] rfl⟩

/-- C9: an import whose top-level shape is neither a W3C
`AnnotationCollection` (`@context` + `type`) nor a legacy document carrying
both `groups` and `annotations` is rejected with the invalid-format status,
and the document (groups, annotations, model-info entries) is unchanged. -/
theorem spec_c9 (env : ImportEnv) (ctr : Nat) (st : AppState) (raw : RawDoc)
    (h1 : (raw.hasContext && raw.typeIsAnnotationCollection) = false)
    (h2 : (raw.hasGroups && raw.hasAnnotations) = false) :
    importAnnotations env ctr st raw = (st, ImportStatus.invalidFormat) ∧
    (importAnnotations env ctr st raw).1.groups = st.groups ∧
    (importAnnotations env ctr st raw).1.annotations = st.annotations ∧
    (importAnnotations env ctr st raw).1.modelInfoEntries = st.modelInfoEntries := by
  have hmain : importAnnotations env ctr st raw = (st, ImportStatus.invalidFormat) := by
    unfold importAnnotations
    simp [h1, h2]
  exact ⟨hmain, by rw [hmain], by rw [hmain], by rw [hmain]⟩

/-- Witness for C9: a document with none of the recognized shape markers
against a one-group, one-annotation, one-entry local state. -/
theorem spec_c9_witness :
    (let env : ImportEnv := { timeOf := fun _ => 0, freshId := fun n => n, freshUuid := fun n => toString n }
     let g : Group := { id := 1, uuid := "g", name := "G", color := "#fff", visible := true }
     let e : Entry := { id := 1, uuid := "e", description := "d", author := "a", timestamp := "t", links := [], versions := [] }
     let st : AppState := { groups := [g], annotations := [], modelInfoEntries := [e] }
     let raw : RawDoc := { hasContext := true, typeIsAnnotationCollection := false,
                           hasGroups := false, hasAnnotations := true,
                           w3c := { upAxisZ := false, modelInfo := none, groups := [], annotations := [] },
                           legacy := { modelInfo := none, groups := [], annotations := [] } }
     importAnnotations env 0 st raw = (st, ImportStatus.invalidFormat) ∧
       (importAnnotations env 0 st raw).1.groups = st.groups ∧
       (importAnnotations env 0 st raw).1.annotations = st.annotations ∧
       (importAnnotations env 0 st raw).1.modelInfoEntries = st.modelInfoEntries) := by
  exact spec_c9 _ 0 _ _ rfl rfl

theorem writeFacesInto_buf {V : Type} (meshes : List (PaintMesh V)) :
    ∀ (fs : List Nat) (b : List V),
      writeFacesInto meshes fs b = b ++ writeFacesInto meshes fs [] := by
  intro fs
  induction fs with
  | nil => intro b; simp [writeFacesInto]
  | cons f fs ih =>
    intro b
    show writeFacesInto meshes fs (b ++ faceVertsOf meshes f) =
      b ++ writeFacesInto meshes fs ([] ++ faceVertsOf meshes f)
    rw [ih (b ++ faceVertsOf meshes f), ih ([] ++ faceVertsOf meshes f)]
    simp

theorem writeFacesInto_faces {V : Type} (meshes : List (PaintMesh V))
    (xs ys : List Nat) (b : List V) :
    writeFacesInto meshes (xs ++ ys) b =
      writeFacesInto meshes ys (writeFacesInto meshes xs b) := by
  unfold writeFacesInto
  exact List.foldl_append _ _ _ _

theorem writeFacesInto_length {V : Type} (meshes : List (PaintMesh V)) :
    ∀ fs : List Nat, (∀ f ∈ fs, (writeFace meshes f).isSome) →
      (writeFacesInto meshes fs []).length = 3 * fs.length := by
  intro fs
  induction fs with
  | nil => intro _; simp [writeFacesInto]
  | cons f fs ih =>
    intro h
    show (writeFacesInto meshes fs ([] ++ faceVertsOf meshes f)).length = _
    rw [writeFacesInto_buf]
    have hf : (faceVertsOf meshes f).length = 3 := by
      have := h f (List.mem_cons_self _ _)
      unfold faceVertsOf
      rcases hw : writeFace meshes f with _ | t
      · rw [hw] at this; simp at this
      · simp
    simp only [List.length_append, List.nil_append, hf,
      ih (fun g hg => h g (List.mem_cons_of_mem _ hg)), List.length_cons]
    ring

/-- The inductive invariant of a non-erasing paint session: the painted set
splits into an already-flushed prefix (whose faces fill the buffer) followed
by the pending queue, and no full rebuild is outstanding. -/
def PaintInv {V : Type} (meshes : List (PaintMesh V)) (s : PaintState V) : Prop :=
  (∃ processed, s.paintedFaces = processed ++ s.pendingFaces ∧
    s.buffer = writeFacesInto meshes processed []) ∧
  s.needsFullHighlightRebuild = false

theorem paintProcessFace_inv {V : Type} (meshes : List (PaintMesh V))
    (s : PaintState V) (f : Nat) (hinv : PaintInv meshes s) :
    PaintInv meshes (paintProcessFace false s f) := by
  obtain ⟨⟨processed, hsplit, hbuf⟩, hfull⟩ := hinv
  unfold paintProcessFace
  simp only [Bool.false_eq_true, if_false]
  by_cases hmem : f ∈ s.paintedFaces
  · rw [if_pos hmem]
    exact ⟨⟨processed, hsplit, hbuf⟩, hfull⟩
  · rw [if_neg hmem]
    refine ⟨⟨processed, ?_, hbuf⟩, hfull⟩
    simp [hsplit]

theorem paintProcessFace_resolvable {V : Type} (meshes : List (PaintMesh V))
    (s : PaintState V) (f : Nat)
    (hres : ∀ g ∈ s.paintedFaces, (writeFace meshes g).isSome)
    (hf : (writeFace meshes f).isSome) :
    ∀ g ∈ (paintProcessFace false s f).paintedFaces, (writeFace meshes g).isSome := by
  unfold paintProcessFace
  simp only [Bool.false_eq_true, if_false]
  by_cases hmem : f ∈ s.paintedFaces
  · rw [if_pos hmem]; exact hres
  · rw [if_neg hmem]
    intro g hg
    simp only [List.mem_append, List.mem_singleton] at hg
    rcases hg with hg | rfl
    · exact hres g hg
    · exact hf

theorem paintAtPoint_inv {V : Type} (meshes : List (PaintMesh V))
    (cands : List Nat) :
    ∀ (s : PaintState V),
      PaintInv meshes s →
      (∀ g ∈ s.paintedFaces, (writeFace meshes g).isSome) →
      (∀ f ∈ cands, (writeFace meshes f).isSome) →
      PaintInv meshes (paintAtPoint false cands s) ∧
        ∀ g ∈ (paintAtPoint false cands s).paintedFaces, (writeFace meshes g).isSome := by
  induction cands with
  | nil => intro s hinv hres _; exact ⟨hinv, hres⟩
  | cons c cs ih =>
    intro s hinv hres hcands
    have hstep := paintProcessFace_inv meshes s c hinv
    have hstepres := paintProcessFace_resolvable meshes s c hres
      (hcands c (List.mem_cons_self _ _))
    exact ih (paintProcessFace false s c) hstep hstepres
      (fun f hf => hcands f (List.mem_cons_of_mem _ hf))

theorem updateSurfaceHighlight_inv {V : Type} (meshes : List (PaintMesh V))
    (s : PaintState V) (hinv : PaintInv meshes s) :
    PaintInv meshes (updateSurfaceHighlight meshes s) ∧
      (updateSurfaceHighlight meshes s).pendingFaces = [] ∧
      (updateSurfaceHighlight meshes s).paintedFaces = s.paintedFaces ∧
      (updateSurfaceHighlight meshes s).buffer =
        writeFacesInto meshes (updateSurfaceHighlight meshes s).paintedFaces [] := by
  obtain ⟨⟨processed, hsplit, hbuf⟩, hfull⟩ := hinv
  unfold updateSurfaceHighlight
  by_cases hempty : s.paintedFaces = []
  · rw [if_pos hempty]
    refine ⟨⟨⟨[], by simp [hempty], by simp [writeFacesInto]⟩, rfl⟩, rfl, rfl, ?_⟩
    simp [hempty, writeFacesInto]
  · rw [if_neg hempty, if_neg (by simp [hfull])]
    by_cases hpend : s.pendingFaces ≠ []
    · rw [if_pos hpend]
      unfold appendPendingFaces
      rw [if_neg (by simpa using hpend)]
      have hflush : writeFacesInto meshes s.pendingFaces s.buffer =
          writeFacesInto meshes s.paintedFaces [] := by
        rw [hbuf, ← writeFacesInto_faces, ← hsplit]
      exact ⟨⟨⟨s.paintedFaces, by simp, hflush⟩, hfull⟩, rfl, rfl, hflush⟩
    · rw [if_neg hpend]
      push_neg at hpend
      refine ⟨⟨⟨processed, hsplit, hbuf⟩, hfull⟩, hpend, rfl, ?_⟩
      rw [hbuf, hsplit, hpend, List.append_nil]

/-- C4: starting a fresh paint session, any sequence of non-erasing
`paintAtPoint` calls (over candidates resolving to existing meshes)
interleaved with highlight updates and ending in a flush leaves the
incrementally-appended buffer identical to a from-scratch
`rebuildHighlightFull` of the final painted set, with exactly `3k` valid
vertices for the `k` newly painted triangles. -/
theorem spec_c4 {V : Type} (meshes : List (PaintMesh V)) (ops : List PaintOp)
    (h : ∀ op ∈ ops, nonErasingResolvable meshes op) :
    (runPaintOps meshes initialPaintState (ops ++ [PaintOp.update])).buffer =
      (rebuildHighlightFull meshes
        (runPaintOps meshes initialPaintState (ops ++ [PaintOp.update]))).buffer ∧
    (runPaintOps meshes initialPaintState (ops ++ [PaintOp.update])).buffer.length =
      3 * (runPaintOps meshes initialPaintState
            (ops ++ [PaintOp.update])).paintedFaces.length := by
  have hrun : ∀ (ops2 : List PaintOp) (s : PaintState V),
      (∀ op ∈ ops2, nonErasingResolvable meshes op) →
      PaintInv meshes s →
      (∀ g ∈ s.paintedFaces, (writeFace meshes g).isSome) →
      PaintInv meshes (runPaintOps meshes s ops2) ∧
        ∀ g ∈ (runPaintOps meshes s ops2).paintedFaces, (writeFace meshes g).isSome := by
    intro ops2
    induction ops2 with
    | nil => intro s _ hinv hres; exact ⟨hinv, hres⟩
    | cons op rest ih =>
      intro s hops hinv hres
      have hop := hops op (List.mem_cons_self _ _)
      have hrest := fun o ho => hops o (List.mem_cons_of_mem _ ho)
      cases op with
      | paint isErasing cands =>
        obtain ⟨herase, hcands⟩ := hop
        subst herase
        have hstep := paintAtPoint_inv meshes cands s hinv hres hcands
        exact ih _ hrest hstep.1 hstep.2
      | update =>
        have hstep := updateSurfaceHighlight_inv meshes s hinv
        have hres2 : ∀ g ∈ (updateSurfaceHighlight meshes s).paintedFaces,
            (writeFace meshes g).isSome := by
          rw [hstep.2.2.1]; exact hres
        exact ih _ hrest hstep.1 hres2
  have hinit : PaintInv meshes (initialPaintState (V := V)) :=
    ⟨⟨[], by simp [initialPaintState], by simp [initialPaintState, writeFacesInto]⟩, rfl⟩
  have hinitres : ∀ g ∈ (initialPaintState (V := V)).paintedFaces,
      (writeFace meshes g).isSome := by
    simp [initialPaintState]
  have hmid := hrun ops initialPaintState h hinit hinitres
  have hsplitrun : runPaintOps meshes initialPaintState (ops ++ [PaintOp.update]) =
      updateSurfaceHighlight meshes (runPaintOps meshes initialPaintState ops) := by
    unfold runPaintOps
    rw [List.foldl_append]
    rfl
  have hfinal := updateSurfaceHighlight_inv meshes
    (runPaintOps meshes initialPaintState ops) hmid.1
  constructor
  · rw [hsplitrun]
    unfold rebuildHighlightFull
    simp only []
    exact hfinal.2.2.2
  · rw [hsplitrun, hfinal.2.2.2]
    refine writeFacesInto_length meshes _ ?_
    rw [hfinal.2.2.1]
    exact hmid.2

/-- Witness for C4: one mesh, two paint calls adding faces `0, 1` then `1, 2`
with an intermediate flush; the final buffer equals the full rebuild and has
`3 * 3` vertices. -/
theorem spec_c4_witness :
    (let meshes : List (PaintMesh Nat) := [{ faceVerts := fun i => (i, i + 100, i + 200) }]
     let ops : List PaintOp := [PaintOp.paint false [0, 1], PaintOp.update, PaintOp.paint false [1, 2]]
     (∀ op ∈ ops, nonErasingResolvable meshes op) ∧
       ((runPaintOps meshes initialPaintState (ops ++ [PaintOp.update])).buffer =
          (rebuildHighlightFull meshes
            (runPaintOps meshes initialPaintState (ops ++ [PaintOp.update]))).buffer ∧
        (runPaintOps meshes initialPaintState (ops ++ [PaintOp.update])).buffer.length =
          3 * (runPaintOps meshes initialPaintState
                (ops ++ [PaintOp.update])).paintedFaces.length)) := by
  refine ⟨?_, spec_c4 _ _ ?_⟩ <;>
  · intro op hop
    fin_cases hop
    · exact ⟨rfl, by decide⟩
    · trivial
    · exact ⟨rfl, by decide⟩

theorem v3Dot_self_nonneg (v : V3) : 0 ≤ v3Dot v v := by
  unfold v3Dot
  nlinarith [mul_self_nonneg v.x, mul_self_nonneg v.y, mul_self_nonneg v.z]

theorem v3Len_nonneg (v : V3) : 0 ≤ v3Len v := Real.sqrt_nonneg _

theorem v3Len_mul_self (v : V3) : v3Len v * v3Len v = v3Dot v v :=
  Real.mul_self_sqrt (v3Dot_self_nonneg v)

theorem v3DistanceTo_self (v : V3) : v3DistanceTo v v = 0 := by
  unfold v3DistanceTo v3Len v3Sub v3Dot
  simp

/-- The acceptance loop over the per-sample deviation, once the degenerate
chord guard has passed. -/
theorem isProjectionAcceptable_eq (devRel devAbs boundingSize : ℝ)
    (pts : List V3) (A B : V3) (h : ¬ v3Len (v3Sub B A) < 1e-10) :
    isProjectionAcceptable devRel devAbs boundingSize pts A B =
      pts.all (fun p => decide (sampleDeviation A B p ≤
        min (devRel * v3Len (v3Sub B A)) (devAbs * boundingSize))) := by
  unfold isProjectionAcceptable
  rw [if_neg h]
  rfl

/-- A sample lying on the chord (`p = A + s·(B−A)`, `0 ≤ s ≤ 1`) has zero
deviation: the clamp keeps the foot at the sample itself. -/
theorem sampleDeviation_on_chord (A B : V3) (s : ℝ) (hs0 : 0 ≤ s) (hs1 : s ≤ 1)
    (hlen : v3Len (v3Sub B A) ≠ 0) :
    sampleDeviation A B (v3Add A (v3Smul s (v3Sub B A))) = 0 := by
  have hL0 : 0 ≤ v3Len (v3Sub B A) := v3Len_nonneg _
  have hLpos : 0 < v3Len (v3Sub B A) := lt_of_le_of_ne hL0 (Ne.symm hlen)
  have hD : v3Dot (v3Sub B A) (v3Sub B A) =
      v3Len (v3Sub B A) * v3Len (v3Sub B A) := (v3Len_mul_self _).symm
  unfold sampleDeviation
  simp only []
  have htp : v3Sub (v3Add A (v3Smul s (v3Sub B A))) A = v3Smul s (v3Sub B A) := by
    unfold v3Sub v3Add v3Smul
    simp only [V3.mk.injEq]
    refine ⟨by ring, by ring, by ring⟩
  rw [htp]
  have hdot : v3Dot (v3Smul s (v3Sub B A))
      (v3Smul (1 / v3Len (v3Sub B A)) (v3Sub B A)) = s * v3Len (v3Sub B A) := by
    unfold v3Dot v3Smul
    have hexp : s * (v3Sub B A).x * (1 / v3Len (v3Sub B A) * (v3Sub B A).x) +
        s * (v3Sub B A).y * (1 / v3Len (v3Sub B A) * (v3Sub B A).y) +
        s * (v3Sub B A).z * (1 / v3Len (v3Sub B A) * (v3Sub B A).z) =
        s * (1 / v3Len (v3Sub B A)) * v3Dot (v3Sub B A) (v3Sub B A) := by
      unfold v3Dot
      ring
    rw [hexp, hD]
    field_simp
    ring
  rw [hdot]
  have hmin : min (v3Len (v3Sub B A)) (s * v3Len (v3Sub B A)) =
      s * v3Len (v3Sub B A) :=
    min_eq_right (by nlinarith)
  have hmax : max 0 (s * v3Len (v3Sub B A)) = s * v3Len (v3Sub B A) :=
    max_eq_right (mul_nonneg hs0 hL0)
  rw [hmin, hmax]
  have hclosest : v3Add A (v3Smul (s * v3Len (v3Sub B A))
      (v3Smul (1 / v3Len (v3Sub B A)) (v3Sub B A))) =
      v3Add A (v3Smul s (v3Sub B A)) := by
    unfold v3Add v3Smul
    simp only [V3.mk.injEq]
    refine ⟨?_, ?_, ?_⟩ <;> (field_simp; ring)
  rw [hclosest, v3DistanceTo_self]

/-- C5 (amended): when the chord length is at least the `1e-10` degenerate
guard, the projection is rejected iff some sample's clamped perpendicular
deviation exceeds `min(devRel·chordLength, devAbs·boundingSize)`; and (for
nonnegative configuration) a polyline whose every sample lies on the chord
is always accepted. -/
theorem spec_c5 (devRel devAbs boundingSize : ℝ) (pts : List V3) (A B : V3)
    (hlen : 1e-10 ≤ v3Len (v3Sub B A)) :
    (isProjectionAcceptable devRel devAbs boundingSize pts A B = false ↔
      ∃ p ∈ pts, min (devRel * v3Len (v3Sub B A)) (devAbs * boundingSize) <
        sampleDeviation A B p) ∧
    (0 ≤ devRel → 0 ≤ devAbs → 0 ≤ boundingSize →
      (∀ p ∈ pts, ∃ s : ℝ, 0 ≤ s ∧ s ≤ 1 ∧ p = v3Add A (v3Smul s (v3Sub B A))) →
      isProjectionAcceptable devRel devAbs boundingSize pts A B = true) := by
  have hguard : ¬ v3Len (v3Sub B A) < 1e-10 := not_lt.mpr hlen
  rw [isProjectionAcceptable_eq devRel devAbs boundingSize pts A B hguard]
  constructor
  · rw [Bool.eq_false_iff, Ne, List.all_eq_true]
    constructor
    · intro hnot
      push_neg at hnot
      obtain ⟨p, hmem, hdev⟩ := hnot
      refine ⟨p, hmem, not_le.mp fun hle => hdev ?_⟩
      exact decide_eq_true hle
    · rintro ⟨p, hmem, hdev⟩ hall
      have := hall p hmem
      rw [decide_eq_true_eq] at this
      exact absurd this (not_le.mpr hdev)
  · intro hr ha hb hchord
    rw [List.all_eq_true]
    intro p hp
    rw [decide_eq_true_eq]
    obtain ⟨s, hs0, hs1, rfl⟩ := hchord p hp
    rw [sampleDeviation_on_chord A B s hs0 hs1
      (by intro h0; rw [h0] at hlen; norm_num at hlen)]
    exact le_min (by positivity) (by positivity)

/-- Counterexample to C5 as stated: a nonzero chord of length `1e-11` falls
under the `lineLength < 1e-10` degenerate guard, so the projection is
accepted even though the single sample's deviation (`1`) exceeds
`min(0.2·chord, 0.03·1)` — the claimed "rejects iff some deviation exceeds
the bound" fails for nonzero chords below the guard. -/
theorem spec_c5_counterexample :
    (let A : V3 := ⟨0, 0, 0⟩
     let B : V3 := ⟨1e-11, 0, 0⟩
     let p : V3 := ⟨0, 1, 0⟩
     v3Len (v3Sub B A) ≠ 0 ∧
       isProjectionAcceptable 0.2 0.03 1 [p] A B = true ∧
       min (0.2 * v3Len (v3Sub B A)) (0.03 * 1) < sampleDeviation A B p) := by
  intro A B p
  have hsub : v3Sub B A = ⟨1e-11, 0, 0⟩ := by
    unfold v3Sub
    simp only [V3.mk.injEq]
    norm_num
  have hL : v3Len (v3Sub B A) = 1e-11 := by
    rw [hsub]
    unfold v3Len v3Dot
    rw [show ((1e-11 : ℝ) * 1e-11 + 0 * 0 + 0 * 0) = (1e-11 : ℝ) * 1e-11 by ring]
    exact Real.sqrt_mul_self (by norm_num)
  have hdir : v3Smul (1 / v3Len (v3Sub B A)) (v3Sub B A) = ⟨1, 0, 0⟩ := by
    rw [hL, hsub]
    unfold v3Smul
    simp only [V3.mk.injEq]
    norm_num
  have hdev : sampleDeviation A B p = 1 := by
    show v3DistanceTo
        (v3Add A (v3Smul (max 0 (min (v3Len (v3Sub B A))
          (v3Dot (v3Sub p A) (v3Smul (1 / v3Len (v3Sub B A)) (v3Sub B A)))))
          (v3Smul (1 / v3Len (v3Sub B A)) (v3Sub B A)))) p = 1
    rw [hdir, hL]
    have h2 : v3Sub p A = ⟨0, 1, 0⟩ := by
      unfold v3Sub
      simp only [V3.mk.injEq]
      norm_num
    rw [h2]
    have h3 : v3Dot ⟨0, 1, 0⟩ ⟨1, 0, 0⟩ = 0 := by
      unfold v3Dot
      norm_num
    rw [h3]
    have h4 : max (0 : ℝ) (min (1e-11 : ℝ) 0) = 0 := by
      rw [min_eq_right (by norm_num)]
      norm_num
    rw [h4]
    have h5 : v3Add A (v3Smul 0 ⟨1, 0, 0⟩) = A := by
      unfold v3Add v3Smul
      simp only [V3.mk.injEq]
      norm_num
    rw [h5]
    unfold v3DistanceTo v3Sub v3Len v3Dot
    rw [show ((0 : ℝ) - 0) * (0 - 0) + ((0 : ℝ) - 1) * (0 - 1) + ((0 : ℝ) - 0) * (0 - 0) = 1 by ring]
    exact Real.sqrt_one
  refine ⟨by rw [hL]; norm_num, ?_, ?_⟩
  · unfold isProjectionAcceptable
    rw [if_pos (by rw [hL]; norm_num)]
  · rw [hL, hdev]
    norm_num

/-- Witness for C5 (amended): the unit chord `A = (0,0,0)`, `B = (1,0,0)`
passes the degenerate guard, with both endpoints as the samples. -/
theorem spec_c5_witness :
    (let A : V3 := ⟨0, 0, 0⟩
     let B : V3 := ⟨1, 0, 0⟩
     1e-10 ≤ v3Len (v3Sub B A) ∧
      ((isProjectionAcceptable 0.2 0.03 1 [A, B] A B = false ↔
          ∃ p ∈ [A, B], min (0.2 * v3Len (v3Sub B A)) (0.03 * 1) <
            sampleDeviation A B p) ∧
       ((0 : ℝ) ≤ 0.2 → (0 : ℝ) ≤ 0.03 → (0 : ℝ) ≤ 1 →
         (∀ p ∈ [A, B], ∃ s : ℝ, 0 ≤ s ∧ s ≤ 1 ∧ p = v3Add A (v3Smul s (v3Sub B A))) →
         isProjectionAcceptable 0.2 0.03 1 [A, B] A B = true))) := by
  intro A B
  have hsub : v3Sub B A = ⟨1, 0, 0⟩ := by
    unfold v3Sub
    simp only [V3.mk.injEq]
    norm_num
  have hL : v3Len (v3Sub B A) = 1 := by
    rw [hsub]
    unfold v3Len v3Dot
    rw [show ((1 : ℝ) * 1 + 0 * 0 + 0 * 0) = 1 by ring]
    exact Real.sqrt_one
  have hlen : (1e-10 : ℝ) ≤ v3Len (v3Sub B A) := by
    rw [hL]
    norm_num
  exact ⟨hlen, spec_c5 0.2 0.03 1 [A, B] A B hlen⟩

/-! ### Exact-copy import (C7) -/

/-- Two entry records equal in everything except the session-local numeric
`id` (regenerated when a document is re-imported). -/
def entrySameExceptId (e ie : Entry) : Prop :=
  e.uuid = ie.uuid ∧ e.description = ie.description ∧ e.author = ie.author ∧
  e.timestamp = ie.timestamp ∧ e.modified = ie.modified ∧ e.created = ie.created ∧
  e.links = ie.links ∧ e.versions = ie.versions

instance (e ie : Entry) : Decidable (entrySameExceptId e ie) :=
  inferInstanceAs (Decidable (_ ∧ _))

/-- The slice of an imported annotation that the UUID-matched merge reads:
identity plus the three merged histories (entries, name versions, group
versions), each equal to the local annotation's. -/
def annMergeCopy (a ia : Ann) : Prop :=
  a.uuid = ia.uuid ∧ List.Forall₂ entrySameExceptId a.entries ia.entries ∧
  a.nameVersions = ia.nameVersions ∧ a.groupVersions = ia.groupVersions

/-- Well-formedness of a local annotation's histories as every writer of the
document model maintains them: entry UUIDs unique, entries and all version
lists chronologically sorted. -/
def annWf (a : Ann) : Prop :=
  (a.entries.map (fun e => e.uuid)).Nodup ∧ List.Sorted entLe a.entries ∧
  List.Sorted vLe a.nameVersions ∧ List.Sorted vLe a.groupVersions ∧
  ∀ e ∈ a.entries, List.Sorted vLe e.versions

theorem sortVersions_sorted_id (l : List Version) (h : List.Sorted vLe l) :
    sortVersions l = l :=
  List.Sorted.insertionSort_eq h

theorem sortEntries_sorted_id (l : List Entry) (h : List.Sorted entLe l) :
    sortEntries l = l :=
  List.Sorted.insertionSort_eq h

theorem addNewVersions_all_seen (im : List Version) :
    ∀ seen : List String, (∀ v ∈ im, v.savedAt ∈ seen) →
      addNewVersions seen im = [] := by
  induction im with
  | nil => intro seen _; rfl
  | cons v vs ih =>
    intro seen h
    unfold addNewVersions
    rw [if_pos (h v (List.mem_cons_self _ _))]
    exact ih seen (fun w hw => h w (List.mem_cons_of_mem _ hw))

theorem mergeVersionHistories_self (l : List Version) (h : List.Sorted vLe l) :
    mergeVersionHistories l l = l := by
  unfold mergeVersionHistories
  by_cases hl : l = []
  · rw [if_pos hl]
  · rw [if_neg hl, addNewVersions_all_seen l _ (fun v hv => List.mem_map_of_mem _ hv),
      List.append_nil]
    exact sortVersions_sorted_id l h

theorem findFirstIdx_eq_of_unique {α : Type} (p : α → Bool) (d : α) :
    ∀ (l : List α) (k : Nat), k < l.length → p (l.getD k d) = true →
      (∀ j, j < l.length → p (l.getD j d) = true → j = k) →
      findFirstIdx p l = some k := by
  intro l
  induction l with
  | nil => intro k hk; simp at hk
  | cons x xs ih =>
    intro k hk hpk huniq
    by_cases hx : p x
    · have h0 : 0 = k := huniq 0 (by simp) (by simpa using hx)
      simp [findFirstIdx, hx, ← h0]
    · cases k with
      | zero => simp [List.getD] at hpk; exact absurd hpk hx
      | succ k2 =>
        have hfind := ih k2 (by simpa using hk) (by simpa [List.getD] using hpk)
          (fun j hj hpj => by
            have := huniq (j + 1) (by simpa using hj) (by simpa [List.getD] using hpj)
            omega)
        simp [findFirstIdx, hx, hfind]

theorem nodup_map_getD_inj {α β : Type} (f : α → β) (d : α) :
    ∀ (l : List α), (l.map f).Nodup →
      ∀ i j, i < l.length → j < l.length →
        f (l.getD i d) = f (l.getD j d) → i = j := by
  intro l
  induction l with
  | nil => intro _ i j hi; simp at hi
  | cons x xs ih =>
    intro hnd i j hi hj heq
    have hx : f x ∉ xs.map f := (List.nodup_cons.mp hnd).1
    have hxs : (xs.map f).Nodup := (List.nodup_cons.mp hnd).2
    cases i with
    | zero =>
      cases j with
      | zero => rfl
      | succ j2 =>
        exfalso
        have hj2 : j2 < xs.length := by simpa using hj
        have hmem2 : xs.getD j2 d ∈ xs := by
          rw [List.getD_eq_getElem xs d hj2]
          exact List.getElem_mem _
        have heq2 : f x = f (xs.getD j2 d) := by simpa [List.getD] using heq
        exact hx (by rw [heq2]; exact List.mem_map_of_mem f hmem2)
    | succ i2 =>
      cases j with
      | zero =>
        exfalso
        have hi2 : i2 < xs.length := by simpa using hi
        have hmem2 : xs.getD i2 d ∈ xs := by
          rw [List.getD_eq_getElem xs d hi2]
          exact List.getElem_mem _
        have heq2 : f (xs.getD i2 d) = f x := by simpa [List.getD] using heq
        exact hx (by rw [← heq2]; exact List.mem_map_of_mem f hmem2)
      | succ j2 =>
        have := ih hxs i2 j2 (by simpa using hi) (by simpa using hj)
          (by simpa [List.getD] using heq)
        omega

theorem set_getD_self {α : Type} (d : α) :
    ∀ (l : List α) (k : Nat), k < l.length → l.set k (l.getD k d) = l := by
  intro l
  induction l with
  | nil => intro k hk; simp at hk
  | cons x xs ih =>
    intro k hk
    cases k with
    | zero => simp [List.getD]
    | succ k2 =>
      simp only [List.set, List.getD_cons_succ]
      rw [ih k2 (by simpa using hk)]

theorem entryTimestamp_congr (e ie : Entry) (h : entrySameExceptId e ie) :
    entryTimestamp ie = entryTimestamp e := by
  obtain ⟨_, _, _, ht, hm, hc, _, _⟩ := h
  unfold entryTimestamp
  rw [ht, hm, hc]

theorem forall₂_mem_right {α β : Type} (R : α → β → Prop) :
    ∀ (l : List α) (l2 : List β), List.Forall₂ R l l2 →
      ∀ b ∈ l2, ∃ a ∈ l, R a b := by
  intro l l2 h
  induction h with
  | nil => simp
  | cons hR _ ih =>
    intro b hb
    rcases List.mem_cons.mp hb with rfl | hb2
    · exact ⟨_, List.mem_cons_self _ _, hR⟩
    · obtain ⟨a, ha, hab⟩ := ih b hb2
      exact ⟨a, List.mem_cons_of_mem _ ha, hab⟩

theorem latestEntryTime_congr (timeOf : String → Int) (es ies : List Entry)
    (h : List.Forall₂ entrySameExceptId es ies) :
    latestEntryTime timeOf ies = latestEntryTime timeOf es := by
  have hmap : ∀ (l : List Entry) (l2 : List Entry), List.Forall₂ entrySameExceptId l l2 →
      l2.map (fun e => timeOf (entryTimestamp e)) =
        l.map (fun e => timeOf (entryTimestamp e)) := by
    intro l l2 h2
    induction h2 with
    | nil => rfl
    | cons hR _ ih => simp [ih, entryTimestamp_congr _ _ hR]
  cases h with
  | nil => rfl
  | cons hR htail =>
    simp only [latestEntryTime]
    rw [hmap _ _ htail, entryTimestamp_congr _ _ hR]

theorem transformAnnotationCoords_uuid (b : Bool) (a : Ann) :
    (transformAnnotationCoords b a).uuid = a.uuid := by
  unfold transformAnnotationCoords
  split_ifs <;> rfl

theorem transformAnnotationCoords_groupId (b : Bool) (a : Ann) :
    (transformAnnotationCoords b a).groupId = a.groupId := by
  unfold transformAnnotationCoords
  split_ifs <;> rfl

theorem transformAnnotationCoords_entries (b : Bool) (a : Ann) :
    (transformAnnotationCoords b a).entries = a.entries := by
  unfold transformAnnotationCoords
  split_ifs <;> rfl

theorem transformAnnotationCoords_nameVersions (b : Bool) (a : Ann) :
    (transformAnnotationCoords b a).nameVersions = a.nameVersions := by
  unfold transformAnnotationCoords
  split_ifs <;> rfl

theorem transformAnnotationCoords_groupVersions (b : Bool) (a : Ann) :
    (transformAnnotationCoords b a).groupVersions = a.groupVersions := by
  unfold transformAnnotationCoords
  split_ifs <;> rfl

/-- Merging an imported entry that is an id-renamed copy of a local entry
(UUIDs unique, local versions sorted) changes nothing. -/
theorem mergeOneEntry_self (es : List Entry) (ie : Entry) (a u : Nat)
    (hnd : (es.map (fun e => e.uuid)).Nodup)
    (hsorted : ∀ e ∈ es, List.Sorted vLe e.versions)
    (hmatch : ∃ e ∈ es, entrySameExceptId e ie) :
    mergeOneEntry (es, a, u) ie = (es, a, u) := by
  obtain ⟨e, he, hsame⟩ := hmatch
  obtain ⟨k, hk, hek⟩ := List.mem_iff_getElem.mp he
  have hgd : es.getD k defaultEntry = e := by
    rw [List.getD_eq_getElem es defaultEntry hk]
    exact hek
  have hfind : findFirstIdx (fun x : Entry => x.uuid == ie.uuid) es = some k := by
    refine findFirstIdx_eq_of_unique _ defaultEntry es k hk ?_ ?_
    · simp only [hgd, beq_iff_eq]
      exact hsame.1
    · intro j hj hpj
      simp only [beq_iff_eq, decide_eq_true_eq] at hpj
      refine nodup_map_getD_inj (fun e2 => e2.uuid) defaultEntry es hnd j k hj hk ?_
      show (es.getD j defaultEntry).uuid = (es.getD k defaultEntry).uuid
      rw [hpj, hgd, hsame.1]
  have hfm : findMatchIdx es ie = some k := by
    unfold findMatchIdx
    rw [hfind]
  have hversions : e.versions = ie.versions := hsame.2.2.2.2.2.2.2
  rw [mergeOneEntry_matched es ie a u k hfm]
  simp only []
  have he1 : (if ie.versions = [] then es.getD k defaultEntry
      else { es.getD k defaultEntry with
             versions := mergeVersionHistories (es.getD k defaultEntry).versions
               ie.versions }) = es.getD k defaultEntry := by
    by_cases hv : ie.versions = []
    · rw [if_pos hv]
    · rw [if_neg hv, hgd, ← hversions, mergeVersionHistories_self _ (hsorted e he)]
  rw [he1]
  have htseq : entryTimestamp ie = entryTimestamp (es.getD k defaultEntry) := by
    rw [hgd]
    exact entryTimestamp_congr e ie hsame
  rw [if_neg (by rw [htseq]; exact lt_irrefl _)]
  rw [set_getD_self defaultEntry es k hk]

theorem mergeEntries_fold_self (ies : List Entry) :
    ∀ (es : List Entry) (a u : Nat),
      (es.map (fun e => e.uuid)).Nodup →
      (∀ e ∈ es, List.Sorted vLe e.versions) →
      (∀ ie ∈ ies, ∃ e ∈ es, entrySameExceptId e ie) →
      ies.foldl mergeOneEntry (es, a, u) = (es, a, u) := by
  induction ies with
  | nil => intro es a u _ _ _; rfl
  | cons ie rest ih =>
    intro es a u hnd hs hall
    show rest.foldl mergeOneEntry (mergeOneEntry (es, a, u) ie) = (es, a, u)
    rw [mergeOneEntry_self es ie a u hnd hs (hall ie (List.mem_cons_self _ _))]
    exact ih es a u hnd hs (fun x hx => hall x (List.mem_cons_of_mem _ hx))

/-- Merging an entry list that is an id-renamed copy of the well-formed local
list is the identity with zero added/updated counts. -/
theorem mergeEntries_self (es ies : List Entry)
    (hnd : (es.map (fun e => e.uuid)).Nodup)
    (hs : ∀ e ∈ es, List.Sorted vLe e.versions)
    (hse : List.Sorted entLe es)
    (hall : ∀ ie ∈ ies, ∃ e ∈ es, entrySameExceptId e ie) :
    mergeEntries es ies = (es, 0, 0) := by
  unfold mergeEntries
  rw [mergeEntries_fold_self ies es 0 0 hnd hs hall]
  simp only []
  rw [sortEntries_sorted_id es hse]

theorem find?_isSome_of_exists {α : Type} (p : α → Bool) :
    ∀ l : List α, (∃ x ∈ l, p x = true) → ∃ y, l.find? p = some y := by
  intro l
  induction l with
  | nil => simp
  | cons x xs ih =>
    intro ⟨y, hy, hpy⟩
    by_cases hx : p x
    · exact ⟨x, by simp [List.find?, hx]⟩
    · rcases List.mem_cons.mp hy with rfl | hy2
      · exact absurd hpy hx
      · obtain ⟨z, hz⟩ := ih ⟨y, hy2, hpy⟩
        exact ⟨z, by simp [List.find?, hx, hz]⟩

/-- A group already present by UUID leaves the group list and counter
unchanged (only the conversion-side `groupIdMap` is updated). -/
theorem importGroupStep_self (env : ImportEnv) (gs : List Group) (ctr : Nat)
    (ig : Group) (h : ig.uuid ≠ "" ∧ ∃ g ∈ gs, g.uuid = ig.uuid) :
    importGroupStep env (gs, ctr) ig = (gs, ctr) := by
  obtain ⟨hne, g, hg, heq⟩ := h
  obtain ⟨y, hy⟩ := find?_isSome_of_exists (fun g2 : Group => g2.uuid == ig.uuid) gs
    ⟨g, hg, by simp [beq_iff_eq, heq]⟩
  have hby : (if ig.uuid ≠ "" then gs.find? (fun g2 => g2.uuid == ig.uuid) else none) =
      some y := by
    rw [if_pos hne, hy]
  unfold importGroupStep
  simp only [hby]

theorem importGroups_fold_self (env : ImportEnv) (igs : List Group) :
    ∀ (gs : List Group) (ctr : Nat),
      (∀ ig ∈ igs, ig.uuid ≠ "" ∧ ∃ g ∈ gs, g.uuid = ig.uuid) →
      igs.foldl (importGroupStep env) (gs, ctr) = (gs, ctr) := by
  induction igs with
  | nil => intro gs ctr _; rfl
  | cons ig rest ih =>
    intro gs ctr hall
    show rest.foldl (importGroupStep env) (importGroupStep env (gs, ctr) ig) = (gs, ctr)
    rw [importGroupStep_self env gs ctr ig (hall ig (List.mem_cons_self _ _))]
    exact ih gs ctr (fun x hx => hall x (List.mem_cons_of_mem _ hx))

/-- Importing an annotation that is an id-renamed copy of a UUID-matched,
well-formed local annotation only bumps the `skipped` counter. -/
theorem importAnnStep_self (env : ImportEnv) (nt : Bool) (acc : W3CAcc) (ia0 : Ann)
    (hnd : (acc.st.annotations.map (fun a => a.uuid)).Nodup)
    (hwf : ∀ a ∈ acc.st.annotations, annWf a)
    (hgid : ia0.groupId ≠ 0)
    (hmatch : ∃ a ∈ acc.st.annotations, annMergeCopy a ia0) :
    importAnnStep env nt acc ia0 = { acc with skipped := acc.skipped + 1 } := by
  obtain ⟨a, ha, hcopy⟩ := hmatch
  obtain ⟨k, hk, hak⟩ := List.mem_iff_getElem.mp ha
  have hgd : acc.st.annotations.getD k defaultAnn = a := by
    rw [List.getD_eq_getElem _ defaultAnn hk]
    exact hak
  obtain ⟨hwnd, hwse, hwnv, hwgv, hwev⟩ := hwf a ha
  have hcd : ¬((transformAnnotationCoords nt ia0).groupId = 0 ∧ acc.st.groups = []) := by
    rintro ⟨h0, _⟩
    rw [transformAnnotationCoords_groupId] at h0
    exact hgid h0
  have hg0 : ¬((transformAnnotationCoords nt ia0).groupId = 0) := by
    rw [transformAnnotationCoords_groupId]
    exact hgid
  have hfind : findFirstIdx
      (fun a2 : Ann => a2.uuid == (transformAnnotationCoords nt ia0).uuid)
      acc.st.annotations = some k := by
    refine findFirstIdx_eq_of_unique _ defaultAnn _ k hk ?_ ?_
    · simp only [hgd, beq_iff_eq, transformAnnotationCoords_uuid]
      exact hcopy.1
    · intro j hj hpj
      simp only [beq_iff_eq, decide_eq_true_eq, transformAnnotationCoords_uuid] at hpj
      refine nodup_map_getD_inj (fun a2 => a2.uuid) defaultAnn _ hnd j k hj hk ?_
      show (acc.st.annotations.getD j defaultAnn).uuid =
        (acc.st.annotations.getD k defaultAnn).uuid
      rw [hpj, hgd, hcopy.1]
  have ha1 : (if (transformAnnotationCoords nt ia0).nameVersions = []
      then acc.st.annotations.getD k defaultAnn
      else { acc.st.annotations.getD k defaultAnn with
             nameVersions := mergeVersionHistories
               (acc.st.annotations.getD k defaultAnn).nameVersions
               (transformAnnotationCoords nt ia0).nameVersions }) =
      acc.st.annotations.getD k defaultAnn := by
    rw [transformAnnotationCoords_nameVersions, hgd, ← hcopy.2.2.1]
    by_cases hv : a.nameVersions = []
    · rw [if_pos hv]
    · rw [if_neg hv, mergeVersionHistories_self _ hwnv]
  have ha2 : (if (transformAnnotationCoords nt ia0).groupVersions = []
      then acc.st.annotations.getD k defaultAnn
      else { acc.st.annotations.getD k defaultAnn with
             groupVersions := mergeVersionHistories
               (acc.st.annotations.getD k defaultAnn).groupVersions
               (transformAnnotationCoords nt ia0).groupVersions }) =
      acc.st.annotations.getD k defaultAnn := by
    rw [transformAnnotationCoords_groupVersions, hgd, ← hcopy.2.2.2]
    by_cases hv : a.groupVersions = []
    · rw [if_pos hv]
    · rw [if_neg hv, mergeVersionHistories_self _ hwgv]
  have hlat : latestEntryTime env.timeOf (transformAnnotationCoords nt ia0).entries =
      latestEntryTime env.timeOf (acc.st.annotations.getD k defaultAnn).entries := by
    rw [transformAnnotationCoords_entries, hgd]
    exact latestEntryTime_congr env.timeOf a.entries ia0.entries hcopy.2.1
  have hme : mergeEntries (acc.st.annotations.getD k defaultAnn).entries
      (transformAnnotationCoords nt ia0).entries =
      ((acc.st.annotations.getD k defaultAnn).entries, 0, 0) := by
    rw [transformAnnotationCoords_entries, hgd]
    exact mergeEntries_self a.entries ia0.entries hwnd hwev hwse
      (forall₂_mem_right _ _ _ hcopy.2.1)
  have hltneg : ¬(latestEntryTime env.timeOf
      (acc.st.annotations.getD k defaultAnn).entries <
      latestEntryTime env.timeOf (transformAnnotationCoords nt ia0).entries) := by
    rw [hlat]
    exact lt_irrefl _
  unfold importAnnStep
  simp only [if_neg hcd, if_neg hg0, hfind]
  rw [ha1, ha2, if_neg hltneg, hme]
  simp only []
  rw [if_neg (by simp)]
  have hrec : ({ acc.st.annotations.getD k defaultAnn with
      entries := (acc.st.annotations.getD k defaultAnn).entries } : Ann) =
      acc.st.annotations.getD k defaultAnn := rfl
  rw [hrec, set_getD_self defaultAnn _ k hk]

theorem importAnns_fold_self (env : ImportEnv) (nt : Bool) (ias : List Ann) :
    ∀ acc : W3CAcc,
      (acc.st.annotations.map (fun a => a.uuid)).Nodup →
      (∀ a ∈ acc.st.annotations, annWf a) →
      (∀ ia ∈ ias, ia.groupId ≠ 0 ∧ ∃ a ∈ acc.st.annotations, annMergeCopy a ia) →
      ias.foldl (importAnnStep env nt) acc =
        { acc with skipped := acc.skipped + ias.length } := by
  induction ias with
  | nil => intro acc _ _ _; rfl
  | cons ia rest ih =>
    intro acc hnd hwf hall
    show rest.foldl (importAnnStep env nt) (importAnnStep env nt acc ia) = _
    rw [importAnnStep_self env nt acc ia hnd hwf (hall ia (List.mem_cons_self _ _)).1
      (hall ia (List.mem_cons_self _ _)).2]
    rw [ih { acc with skipped := acc.skipped + 1 } hnd hwf
      (fun x hx => (hall x (List.mem_cons_of_mem _ hx)))]
    simp only [List.length_cons]
    congr 1
    omega

/-- C7: importing an exact copy of the current document (same UUID-identified
groups, annotations, entries, and version histories — session-local numeric
ids may differ) leaves the document state exactly unchanged, reports zero
added and zero merged annotations, and counts every annotation as skipped;
in particular every version-history list keeps its length. -/
theorem spec_c7 (env : ImportEnv) (ctr : Nat) (st : AppState) (doc : W3CDoc)
    (hmi_nd : (st.modelInfoEntries.map (fun e => e.uuid)).Nodup)
    (hmi_se : List.Sorted entLe st.modelInfoEntries)
    (hmi_sv : ∀ e ∈ st.modelInfoEntries, List.Sorted vLe e.versions)
    (hann_nd : (st.annotations.map (fun a => a.uuid)).Nodup)
    (hann_wf : ∀ a ∈ st.annotations, annWf a)
    (hdoc_mi : ∀ ies, doc.modelInfo = some ies →
        ∀ ie ∈ ies, ∃ e ∈ st.modelInfoEntries, entrySameExceptId e ie)
    (hdoc_groups : ∀ ig ∈ doc.groups, ig.uuid ≠ "" ∧ ∃ g ∈ st.groups, g.uuid = ig.uuid)
    (hdoc_anns : ∀ ia ∈ doc.annotations, ia.groupId ≠ 0 ∧
        ∃ a ∈ st.annotations, annMergeCopy a ia) :
    importW3CAnnotations env ctr st doc = (st, 0, 0, doc.annotations.length) := by
  have hst1 : (match doc.modelInfo with
      | none => st
      | some ies => { st with modelInfoEntries := (mergeEntries st.modelInfoEntries ies).1 }) =
      st := by
    rcases hmi : doc.modelInfo with _ | ies
    · rfl
    · simp only []
      rw [mergeEntries_self st.modelInfoEntries ies hmi_nd hmi_sv hmi_se
        (hdoc_mi ies hmi)]
  unfold importW3CAnnotations
  simp only [hst1]
  rw [importGroups_fold_self env doc.groups st.groups ctr hdoc_groups]
  simp only []
  have hacc := importAnns_fold_self env doc.upAxisZ doc.annotations
    { st := { st with groups := st.groups }, ctr := ctr, added := 0, merged := 0, skipped := 0 }
    hann_nd hann_wf hdoc_anns
  rw [hacc]
  simp

/-- Witness for C7: a one-group, one-annotation (one entry, one name-version),
one-model-info-entry state re-importing its own copy with fresh numeric ids. -/
theorem spec_c7_witness :
    (let env : ImportEnv := { timeOf := fun s => (s.length : Int), freshId := fun n => n + 50, freshUuid := fun n => toString n }
     let v : Version := { description := "old", author := "p", links := [], savedAt := "2024-01-01" }
     let e : Entry := { id := 1, uuid := "ue", description := "d", author := "p", timestamp := "2024-02-01", links := [], versions := [v] }
     let e2 : Entry := { id := 9, uuid := "ue", description := "d", author := "p", timestamp := "2024-02-01", links := [], versions := [v] }
     let m : Entry := { id := 2, uuid := "um", description := "mi", author := "q", timestamp := "2024-03-01", links := [], versions := [] }
     let m2 : Entry := { id := 8, uuid := "um", description := "mi", author := "q", timestamp := "2024-03-01", links := [], versions := [] }
     let g : Group := { id := 3, uuid := "ug", name := "G", color := "#abc", visible := true }
     let a : Ann := { id := 4, uuid := "ua", type := "line", name := "A", groupId := 3, points := [⟨0, 0, 0⟩, ⟨1, 0, 0⟩], faceData := none, boxData := none, projectedEdges := none, entries := [e], nameVersions := [v], groupVersions := [] }
     let a2 : Ann := { id := 7, uuid := "ua", type := "line", name := "A", groupId := 3, points := [⟨0, 0, 0⟩, ⟨1, 0, 0⟩], faceData := none, boxData := none, projectedEdges := none, entries := [e2], nameVersions := [v], groupVersions := [] }
     let st : AppState := { groups := [g], annotations := [a], modelInfoEntries := [m] }
     let doc : W3CDoc := { upAxisZ := false, modelInfo := some [m2], groups := [g], annotations := [a2] }
     ((st.modelInfoEntries.map (fun e3 => e3.uuid)).Nodup ∧
       List.Sorted entLe st.modelInfoEntries ∧
       (∀ e3 ∈ st.modelInfoEntries, List.Sorted vLe e3.versions) ∧
       (st.annotations.map (fun a3 => a3.uuid)).Nodup ∧
       (∀ a3 ∈ st.annotations, annWf a3) ∧
       (∀ ig ∈ doc.groups, ig.uuid ≠ "" ∧ ∃ g2 ∈ st.groups, g2.uuid = ig.uuid) ∧
       (∀ ia ∈ doc.annotations, ia.groupId ≠ 0 ∧
          ∃ a3 ∈ st.annotations, annMergeCopy a3 ia)) ∧
       importW3CAnnotations env 17 st doc = (st, 0, 0, doc.annotations.length)) := by
  refine ⟨⟨?_, ?_, ?_, ?_, ?_, ?_, ?_⟩, ?_⟩
  · decide
  · decide
  · decide
  · decide
  · intro a3 ha3
    fin_cases ha3
    refine ⟨by decide, by decide, by decide, by decide, by decide⟩
  · intro ig hig
    fin_cases hig
    exact ⟨by decide, _, List.mem_cons_self _ _, rfl⟩
  · intro ia hia
    fin_cases hia
    refine ⟨by decide, _, List.mem_cons_self _ _, by decide, ?_, by decide, by decide⟩
    exact List.Forall₂.cons (by decide) List.Forall₂.nil
  · refine spec_c7 _ 17 _ _ (by decide) (by decide) (by decide) (by decide) ?_ ?_ ?_ ?_
    · intro a3 ha3
      fin_cases ha3
      refine ⟨by decide, by decide, by decide, by decide, by decide⟩
    · intro ies hies
      injection hies with hies2
      subst hies2
      intro ie hie
      fin_cases hie
      exact ⟨_, List.mem_cons_self _ _, by decide⟩
    · intro ig hig
      fin_cases hig
      exact ⟨by decide, _, List.mem_cons_self _ _, rfl⟩
    · intro ia hia
      fin_cases hia
      refine ⟨by decide, _, List.mem_cons_self _ _, by decide, ?_, by decide, by decide⟩
      exact List.Forall₂.cons (by decide) List.Forall₂.nil

end MeshNotes
